import Mathlib

/-!
Verification development for the MTG-Cube-Proxy-Maker layout/export core.

The definitions below are a shallow embedding of the TypeScript source:

* unit helpers, `computeLayoutMetrics`, `createCardSlot`, `drawCutGuidelines`
  from `src/lib/exportUtils.ts`;
* the SD enhancement pipeline `maybeUpscalePages`, its progress events and
  per-run dedup cache from `src/lib/export.ts` (current variant);
* the page renderers `renderLayoutPageToCanvas` (current, exportUtils-based)
  and `renderPageToPng` (legacy variant), and the export orchestrators
  `exportToPngs` / `generatePngBlobs`.

JavaScript numbers are modelled as exact rationals (`ℚ`); `Math.round` is
`jsRound` (floor of x + 1/2, i.e. round half towards positive infinity),
`Math.floor` on naturals is `Nat` division.  Network effects (the SD service,
image loading) are modelled as explicit oracle functions passed to the
embedded code.
-/

namespace MTGPM

/-- JavaScript Math.round: round half towards positive infinity. -/
def jsRound (q : ℚ) : ℤ := ⌊q + 1/2⌋

/-- Millimeters per inch, `MM_PER_INCH = 25.4`. -/
def MM_PER_INCH : ℚ := 254/10

/-- Grid columns (fixed 3x3 grid). -/
def COLS : ℕ := 3
/-- Grid rows (fixed 3x3 grid). -/
def ROWS : ℕ := 3

/-- Nominal trimmed card width in mm (`CARD_MM.w`). -/
def CARD_MM_W : ℚ := 63
/-- Nominal trimmed card height in mm (`CARD_MM.h`). -/
def CARD_MM_H : ℚ := 88

/-- Paper choices. -/
inductive Paper | A4 | Letter
deriving DecidableEq, Repr

/-- Page orientation. -/
inductive Orientation | portrait | landscape
deriving DecidableEq, Repr

/-- Printer preset (legacy `computeLayoutMetrics` only).  `pnone` is the
string value 'none', which is truthy in JS but selects no auto scale. -/
inductive PrinterPreset | pnone | epsonNormal | epsonUniform
deriving DecidableEq, Repr

/-- ExportOptions from `src/lib/types.ts`; numbers as exact rationals,
optional fields as `Option`. -/
structure ExportOptions where
  dpi : ℚ
  paper : Paper
  bleed : ℚ
  margin : ℚ
  orientation : Orientation
  alignmentOffsetX : ℚ
  alignmentOffsetY : ℚ
  printScaleCompensation : Option ℚ
  printerPreset : Option PrinterPreset
  drawCutMargins : Bool
  upscaleWithSD : Bool
deriving DecidableEq, Repr

/-- `paperSizeInches`: A4 is 210/25.4 x 297/25.4 in, Letter is 8.5 x 11 in. -/
def paperSizeInches (p : Paper) : ℚ × ℚ :=
  match p with
  | Paper.A4 => (210 / MM_PER_INCH, 297 / MM_PER_INCH)
  | Paper.Letter => (85/10, 11)

/-- Page width in inches after applying orientation (orientation swaps w/h). -/
def pageWIn (opts : ExportOptions) : ℚ :=
  match opts.orientation with
  | Orientation.portrait => (paperSizeInches opts.paper).1
  | Orientation.landscape => (paperSizeInches opts.paper).2

/-- Page height in inches after applying orientation. -/
def pageHIn (opts : ExportOptions) : ℚ :=
  match opts.orientation with
  | Orientation.portrait => (paperSizeInches opts.paper).2
  | Orientation.landscape => (paperSizeInches opts.paper).1

/-- Physical page width in millimeters. -/
def pageWMm (opts : ExportOptions) : ℚ := pageWIn opts * MM_PER_INCH

/-- Physical page height in millimeters. -/
def pageHMm (opts : ExportOptions) : ℚ := pageHIn opts * MM_PER_INCH

/-- `mmToPx(mm, dpi) = mm / MM_PER_INCH * dpi`. -/
def mmToPx (mm dpi : ℚ) : ℚ := mm / MM_PER_INCH * dpi

/-- `pxToMm(px, dpi, scale = 1) = px / (dpi * scale) * MM_PER_INCH`. -/
def pxToMm (px dpi scale : ℚ) : ℚ := px / (dpi * scale) * MM_PER_INCH

/-- LayoutMetrics record of `exportUtils.ts`. -/
structure LayoutMetrics where
  cardWMm : ℚ
  cardHMm : ℚ
  marginXMm : ℚ
  marginYMm : ℚ
  offsetXMm : ℚ
  offsetYMm : ℚ
  scale : ℚ
deriving DecidableEq, Repr

/-- The clamp `Math.max(0.95, Math.min(1.1, x))` used for the scale factor. -/
def clampScale (x : ℚ) : ℚ := max (95/100) (min (11/10) x)

/-- `computeLayoutMetrics` from `src/lib/exportUtils.ts`: card size includes
bleed on both sides, scale is the clamped override (`?? 1` on the optional
field), margins center the scaled grid and collapse to 0 when it does not
fit.  User margins are ignored by this variant. -/
def computeLayoutMetrics (opts : ExportOptions) : LayoutMetrics :=
  let bleed := max 0 opts.bleed
  let cardWMm := CARD_MM_W + 2 * bleed
  let cardHMm := CARD_MM_H + 2 * bleed
  let totalGridWMm := (COLS : ℚ) * cardWMm
  let totalGridHMm := (ROWS : ℚ) * cardHMm
  let scaleOverride := opts.printScaleCompensation.getD 1
  let scale := clampScale scaleOverride
  let marginXMm := max 0 ((pageWMm opts - totalGridWMm * scale) / 2)
  let marginYMm := max 0 ((pageHMm opts - totalGridHMm * scale) / 2)
  { cardWMm := cardWMm
    cardHMm := cardHMm
    marginXMm := marginXMm
    marginYMm := marginYMm
    offsetXMm := opts.alignmentOffsetX
    offsetYMm := opts.alignmentOffsetY
    scale := scale }

/-- `pagePixelSize`: `round(pageIn * dpi)` on each axis. -/
def pagePixelSize (opts : ExportOptions) : ℤ × ℤ :=
  (jsRound (pageWIn opts * opts.dpi), jsRound (pageHIn opts * opts.dpi))

/-- A pixel slot rectangle. -/
structure SlotRect where
  x : ℤ
  y : ℤ
  w : ℤ
  h : ℤ
deriving DecidableEq, Repr

/-- Card width in pixels as computed by `createCardSlot`:
`Math.round(mmToPx(cardWMm, dpi) * scale)`. -/
def slotCardWpx (m : LayoutMetrics) (dpi : ℚ) : ℤ := jsRound (mmToPx m.cardWMm dpi * m.scale)

/-- Card height in pixels as computed by `createCardSlot`. -/
def slotCardHpx (m : LayoutMetrics) (dpi : ℚ) : ℤ := jsRound (mmToPx m.cardHMm dpi * m.scale)

/-- Grid origin x in pixels: `Math.round(mmToPx(marginXMm + offsetXMm, dpi))`
(margins are absolute page distances and are not multiplied by scale again). -/
def slotOriginX (m : LayoutMetrics) (dpi : ℚ) : ℤ := jsRound (mmToPx (m.marginXMm + m.offsetXMm) dpi)

/-- Grid origin y in pixels. -/
def slotOriginY (m : LayoutMetrics) (dpi : ℚ) : ℤ := jsRound (mmToPx (m.marginYMm + m.offsetYMm) dpi)

/-- `createCardSlot` from `src/lib/exportUtils.ts`.  Position is 1-based,
left-to-right then top-to-bottom; an out-of-range position throws in the
source, modelled as `none`.  (The optional black bleed background is a side
effect on the canvas and is emitted by the renderer model below.) -/
def createCardSlot (m : LayoutMetrics) (dpi : ℚ) (position : ℕ) : Option SlotRect :=
  if position < 1 ∨ 9 < position then none
  else
    let cardWpx := slotCardWpx m dpi
    let cardHpx := slotCardHpx m dpi
    let originX := slotOriginX m dpi
    let originY := slotOriginY m dpi
    let idx := position - 1
    let col := idx % COLS
    let row := idx / COLS
    some { x := originX + (col : ℤ) * cardWpx
           y := originY + (row : ℤ) * cardHpx
           w := cardWpx
           h := cardHpx }

/-- A drawn line segment in device pixels (canvas moveTo/lineTo pair). -/
structure Segment where
  x1 : ℚ
  y1 : ℚ
  x2 : ℚ
  y2 : ℚ
deriving DecidableEq, Repr

/-- `drawCutGuidelines` from `src/lib/exportUtils.ts`: four 1px lines placed
on the slot boundaries (half-pixel offset for crispness), each edge extended
by `extendPx` beyond the corners.  Returned in source emission order: top,
bottom, left, right. -/
def drawCutGuidelines (slot : SlotRect) (extendPx : ℚ) : List Segment :=
  let x0 : ℚ := slot.x
  let y0 : ℚ := slot.y
  let x1 : ℚ := slot.x + slot.w
  let y1 : ℚ := slot.y + slot.h
  [ { x1 := x0 - extendPx, y1 := y0 + 1/2, x2 := x1 + extendPx, y2 := y0 + 1/2 }
  , { x1 := x0 - extendPx, y1 := y1 + 1/2, x2 := x1 + extendPx, y2 := y1 + 1/2 }
  , { x1 := x0 + 1/2, y1 := y0 - extendPx, x2 := x0 + 1/2, y2 := y1 + extendPx }
  , { x1 := x1 + 1/2, y1 := y0 - extendPx, x2 := x1 + 1/2, y2 := y1 + extendPx } ]

/-! ### Helper lemmas on the geometry layer -/

theorem clampScale_le_high (x : ℚ) : clampScale x ≤ 11/10 :=
  max_le (by norm_num) (min_le_left _ _)

theorem clampScale_ge_low (x : ℚ) : 95/100 ≤ clampScale x :=
  le_max_left _ _

theorem computeLayoutMetrics_scale (opts : ExportOptions) :
    (computeLayoutMetrics opts).scale = clampScale (opts.printScaleCompensation.getD 1) := rfl

theorem computeLayoutMetrics_cardWMm (opts : ExportOptions) :
    (computeLayoutMetrics opts).cardWMm = CARD_MM_W + 2 * max 0 opts.bleed := rfl

theorem computeLayoutMetrics_cardHMm (opts : ExportOptions) :
    (computeLayoutMetrics opts).cardHMm = CARD_MM_H + 2 * max 0 opts.bleed := rfl

theorem computeLayoutMetrics_marginXMm (opts : ExportOptions) :
    (computeLayoutMetrics opts).marginXMm
      = max 0 ((pageWMm opts - 3 * (computeLayoutMetrics opts).cardWMm
          * (computeLayoutMetrics opts).scale) / 2) := by
  simp only [computeLayoutMetrics, COLS]
  push_cast
  ring_nf

theorem computeLayoutMetrics_marginYMm (opts : ExportOptions) :
    (computeLayoutMetrics opts).marginYMm
      = max 0 ((pageHMm opts - 3 * (computeLayoutMetrics opts).cardHMm
          * (computeLayoutMetrics opts).scale) / 2) := by
  simp only [computeLayoutMetrics, ROWS]
  push_cast
  ring_nf

theorem createCardSlot_eq (m : LayoutMetrics) (dpi : ℚ) (p : ℕ) (h1 : 1 ≤ p) (h9 : p ≤ 9) :
    createCardSlot m dpi p =
      some { x := slotOriginX m dpi + (((p - 1) % COLS : ℕ) : ℤ) * slotCardWpx m dpi
             y := slotOriginY m dpi + (((p - 1) / COLS : ℕ) : ℤ) * slotCardHpx m dpi
             w := slotCardWpx m dpi
             h := slotCardHpx m dpi } := by
  unfold createCardSlot
  rw [if_neg (by omega)]

theorem jsRound_pos (q : ℚ) (hq : 1/2 ≤ q) : 0 < jsRound q := by
  have : (1 : ℤ) ≤ ⌊q + 1/2⌋ := by
    rw [Int.le_floor]
    push_cast
    linarith
  unfold jsRound
  omega

theorem slotCardWpx_pos (opts : ExportOptions) (hdpi : 1 ≤ opts.dpi) :
    0 < slotCardWpx (computeLayoutMetrics opts) opts.dpi := by
  apply jsRound_pos
  have hcard : (63 : ℚ) ≤ (computeLayoutMetrics opts).cardWMm := by
    rw [computeLayoutMetrics_cardWMm]
    have := le_max_left (0 : ℚ) opts.bleed
    unfold CARD_MM_W
    linarith
  have hscale := clampScale_ge_low (opts.printScaleCompensation.getD 1)
  rw [← computeLayoutMetrics_scale] at hscale
  have h1 : (63 : ℚ) / MM_PER_INCH * 1 * (95/100)
      ≤ (computeLayoutMetrics opts).cardWMm / MM_PER_INCH * opts.dpi
        * (computeLayoutMetrics opts).scale := by
    have hm : (0 : ℚ) < MM_PER_INCH := by norm_num [MM_PER_INCH]
    gcongr
  unfold mmToPx
  calc (1 : ℚ)/2 ≤ (63 : ℚ) / MM_PER_INCH * 1 * (95/100) := by norm_num [MM_PER_INCH]
    _ ≤ _ := h1

theorem slotCardHpx_pos (opts : ExportOptions) (hdpi : 1 ≤ opts.dpi) :
    0 < slotCardHpx (computeLayoutMetrics opts) opts.dpi := by
  apply jsRound_pos
  have hcard : (88 : ℚ) ≤ (computeLayoutMetrics opts).cardHMm := by
    rw [computeLayoutMetrics_cardHMm]
    have := le_max_left (0 : ℚ) opts.bleed
    unfold CARD_MM_H
    linarith
  have hscale := clampScale_ge_low (opts.printScaleCompensation.getD 1)
  rw [← computeLayoutMetrics_scale] at hscale
  have h1 : (88 : ℚ) / MM_PER_INCH * 1 * (95/100)
      ≤ (computeLayoutMetrics opts).cardHMm / MM_PER_INCH * opts.dpi
        * (computeLayoutMetrics opts).scale := by
    have hm : (0 : ℚ) < MM_PER_INCH := by norm_num [MM_PER_INCH]
    gcongr
  unfold mmToPx
  calc (1 : ℚ)/2 ≤ (88 : ℚ) / MM_PER_INCH * 1 * (95/100) := by norm_num [MM_PER_INCH]
    _ ≤ _ := h1

/-! ### Claim theorems on the geometry layer -/

/-- C5: for every ExportOptions the scale field of the computed LayoutMetrics
equals clamp(printScaleCompensation ?? 1, 0.95, 1.10), and in particular it
lies in the interval 0.95 to 1.10 for every input value of
printScaleCompensation (including 0, 2.0, -1 and undefined). -/
theorem scale_is_clamped_compensation (opts : ExportOptions) :
    (computeLayoutMetrics opts).scale = clampScale (opts.printScaleCompensation.getD 1)
      ∧ (0.95 : ℚ) ≤ (computeLayoutMetrics opts).scale
      ∧ (computeLayoutMetrics opts).scale ≤ (1.10 : ℚ) := by
  refine ⟨rfl, ?_, ?_⟩
  · rw [computeLayoutMetrics_scale]
    have h := clampScale_ge_low (opts.printScaleCompensation.getD 1)
    linarith [h]
  · rw [computeLayoutMetrics_scale]
    have h := clampScale_le_high (opts.printScaleCompensation.getD 1)
    linarith [h]

/-- Options used in concrete counterexamples: dpi 300, A4 portrait, no
offsets, no compensation, varying bleed. -/
def optsBleed (b : ℚ) : ExportOptions :=
  { dpi := 300, paper := Paper.A4, bleed := b, margin := 0
    orientation := Orientation.portrait, alignmentOffsetX := 0, alignmentOffsetY := 0
    printScaleCompensation := none, printerPreset := none
    drawCutMargins := true, upscaleWithSD := false }

/-- C4 counterexample: at bleed 50 mm the scaled grid (489 mm wide) does not
fit on the 210 mm A4 page; margins collapse to 0 and the grid overflows the
page by far more than any epsilon (shown here for epsilon = 1 mm). -/
theorem grid_overflows_page_counterexample :
    ¬ (2 * (computeLayoutMetrics (optsBleed 50)).marginXMm
        + 3 * (computeLayoutMetrics (optsBleed 50)).cardWMm
          * (computeLayoutMetrics (optsBleed 50)).scale
      ≤ pageWMm (optsBleed 50) + 1) := by
  have hW := computeLayoutMetrics_cardWMm (optsBleed 50)
  have hX := computeLayoutMetrics_marginXMm (optsBleed 50)
  have hs := computeLayoutMetrics_scale (optsBleed 50)
  have hpw : pageWMm (optsBleed 50) = 210 := by
    norm_num [pageWMm, pageWIn, paperSizeInches, optsBleed, MM_PER_INCH]
  have hW' : (computeLayoutMetrics (optsBleed 50)).cardWMm = 163 := by
    rw [hW]; norm_num [optsBleed, CARD_MM_W]
  have hs' : (computeLayoutMetrics (optsBleed 50)).scale = 1 := by
    rw [hs]; norm_num [optsBleed, clampScale]
  have hX' : (computeLayoutMetrics (optsBleed 50)).marginXMm = 0 := by
    rw [hX, hpw, hW', hs']
    norm_num
  rw [hpw, hW', hs', hX']
  norm_num

/-- C4 amended: margins are always nonnegative, and whenever the scaled grid
fits on the page (3 x cardWMm x scale at most pageWMm, and analogously for
the Y axis) the centering margins make the grid fill the page exactly:
2 x marginXMm + 3 x cardWMm x scale = pageWMm.  When the grid does not fit,
the margin collapses to 0 and the grid overflows the page (see the
counterexample); the bound claimed for every ExportOptions holds only under
the fit condition. -/
theorem margins_nonneg_and_grid_fits (opts : ExportOptions) :
    0 ≤ (computeLayoutMetrics opts).marginXMm
    ∧ 0 ≤ (computeLayoutMetrics opts).marginYMm
    ∧ (3 * (computeLayoutMetrics opts).cardWMm * (computeLayoutMetrics opts).scale
          ≤ pageWMm opts →
        2 * (computeLayoutMetrics opts).marginXMm
          + 3 * (computeLayoutMetrics opts).cardWMm * (computeLayoutMetrics opts).scale
          = pageWMm opts)
    ∧ (3 * (computeLayoutMetrics opts).cardHMm * (computeLayoutMetrics opts).scale
          ≤ pageHMm opts →
        2 * (computeLayoutMetrics opts).marginYMm
          + 3 * (computeLayoutMetrics opts).cardHMm * (computeLayoutMetrics opts).scale
          = pageHMm opts) := by
  refine ⟨?_, ?_, ?_, ?_⟩
  · rw [computeLayoutMetrics_marginXMm]; exact le_max_left _ _
  · rw [computeLayoutMetrics_marginYMm]; exact le_max_left _ _
  · intro hfit
    rw [computeLayoutMetrics_marginXMm]
    rw [max_eq_right (by linarith)]
    ring
  · intro hfit
    rw [computeLayoutMetrics_marginYMm]
    rw [max_eq_right (by linarith)]
    ring

/-- C4 witness: at dpi 300, A4 portrait, bleed 0 the grid fits and the
margins center it exactly. -/
theorem margins_nonneg_and_grid_fits_witness :
    0 ≤ (computeLayoutMetrics (optsBleed 0)).marginXMm
    ∧ 2 * (computeLayoutMetrics (optsBleed 0)).marginXMm
        + 3 * (computeLayoutMetrics (optsBleed 0)).cardWMm
          * (computeLayoutMetrics (optsBleed 0)).scale
        = pageWMm (optsBleed 0) := by
  refine ⟨(margins_nonneg_and_grid_fits (optsBleed 0)).1,
    (margins_nonneg_and_grid_fits (optsBleed 0)).2.2.1 ?_⟩
  rw [computeLayoutMetrics_cardWMm, computeLayoutMetrics_scale]
  norm_num [optsBleed, CARD_MM_W, clampScale, pageWMm, pageWIn, paperSizeInches, MM_PER_INCH]

/-- Two horizontally adjacent slots share a guide line: the right-edge guide
of the left slot is an element of both guideline lists and sits on the shared
slot boundary. -/
theorem guides_coincide_horiz (r r2 : SlotRect) (e : ℚ)
    (hx : r2.x = r.x + r.w) (hy : r2.y = r.y) (hh : r2.h = r.h) :
    ∃ s, s ∈ drawCutGuidelines r e ∧ s ∈ drawCutGuidelines r2 e
      ∧ s.x1 = (r.x : ℚ) + (r.w : ℚ) + 1/2 ∧ s.x1 = (r2.x : ℚ) + 1/2 := by
  have hseg : ({ x1 := (r2.x : ℚ) + 1/2, y1 := (r2.y : ℚ) - e
                 x2 := (r2.x : ℚ) + 1/2, y2 := (r2.y : ℚ) + (r2.h : ℚ) + e } : Segment)
      = { x1 := ((r.x : ℚ) + (r.w : ℚ)) + 1/2, y1 := (r.y : ℚ) - e
          x2 := ((r.x : ℚ) + (r.w : ℚ)) + 1/2, y2 := ((r.y : ℚ) + (r.h : ℚ)) + e } := by
    simp only [Segment.mk.injEq, hx, hy, hh]
    push_cast
    refine ⟨by ring, by ring, by ring, by ring⟩
  refine ⟨{ x1 := (r2.x : ℚ) + 1/2, y1 := (r2.y : ℚ) - e
            x2 := (r2.x : ℚ) + 1/2, y2 := (r2.y : ℚ) + (r2.h : ℚ) + e }, ?_, ?_, ?_, rfl⟩
  · rw [hseg]
    exact List.Mem.tail _ (List.Mem.tail _ (List.Mem.tail _ (List.Mem.head _)))
  · exact List.Mem.tail _ (List.Mem.tail _ (List.Mem.head _))
  · rw [hx]
    push_cast
    ring

/-- Two vertically adjacent slots share a guide line: the bottom-edge guide
of the upper slot coincides with the top-edge guide of the lower slot. -/
theorem guides_coincide_vert (r r3 : SlotRect) (e : ℚ)
    (hy : r3.y = r.y + r.h) (hx : r3.x = r.x) (hw : r3.w = r.w) :
    ∃ s, s ∈ drawCutGuidelines r e ∧ s ∈ drawCutGuidelines r3 e
      ∧ s.y1 = (r.y : ℚ) + (r.h : ℚ) + 1/2 ∧ s.y1 = (r3.y : ℚ) + 1/2 := by
  have hseg : ({ x1 := (r3.x : ℚ) - e, y1 := (r3.y : ℚ) + 1/2
                 x2 := ((r3.x : ℚ) + (r3.w : ℚ)) + e, y2 := (r3.y : ℚ) + 1/2 } : Segment)
      = { x1 := (r.x : ℚ) - e, y1 := ((r.y : ℚ) + (r.h : ℚ)) + 1/2
          x2 := ((r.x : ℚ) + (r.w : ℚ)) + e, y2 := ((r.y : ℚ) + (r.h : ℚ)) + 1/2 } := by
    simp only [Segment.mk.injEq, hx, hy, hw]
    push_cast
    refine ⟨by ring, by ring, by ring, by ring⟩
  refine ⟨{ x1 := (r3.x : ℚ) - e, y1 := (r3.y : ℚ) + 1/2
            x2 := ((r3.x : ℚ) + (r3.w : ℚ)) + e, y2 := (r3.y : ℚ) + 1/2 }, ?_, ?_, ?_, rfl⟩
  · rw [hseg]
    exact List.Mem.tail _ (List.Mem.head _)
  · exact List.Mem.head _
  · rw [hy]
    push_cast
    ring

/-- C3 counterexample: with dpi 300, A4 portrait and all other options equal,
the cut-guide lines of grid position 1 are at different pixel positions for
bleed 0 and bleed 3 (the slot origin moves from x = 124 to x = 18), so the
guide positions are not invariant to bleed and do not lie at the trim
boundary. -/
theorem cut_guides_depend_on_bleed_counterexample :
    createCardSlot (computeLayoutMetrics (optsBleed 0)) 300 1
        = some { x := 124, y := 195, w := 744, h := 1039 }
    ∧ createCardSlot (computeLayoutMetrics (optsBleed 3)) 300 1
        = some { x := 18, y := 89, w := 815, h := 1110 }
    ∧ drawCutGuidelines { x := 124, y := 195, w := 744, h := 1039 } 0
        ≠ drawCutGuidelines { x := 18, y := 89, w := 815, h := 1110 } 0 := by
  have m0 : computeLayoutMetrics (optsBleed 0)
      = { cardWMm := 63, cardHMm := 88, marginXMm := 21/2, marginYMm := 33/2
          offsetXMm := 0, offsetYMm := 0, scale := 1 } := by
    norm_num [computeLayoutMetrics, optsBleed, CARD_MM_W, CARD_MM_H, COLS, ROWS,
      clampScale, pageWMm, pageHMm, pageWIn, pageHIn, paperSizeInches, MM_PER_INCH,
      max_def, min_def, LayoutMetrics.mk.injEq]
  have m3 : computeLayoutMetrics (optsBleed 3)
      = { cardWMm := 69, cardHMm := 94, marginXMm := 3/2, marginYMm := 15/2
          offsetXMm := 0, offsetYMm := 0, scale := 1 } := by
    norm_num [computeLayoutMetrics, optsBleed, CARD_MM_W, CARD_MM_H, COLS, ROWS,
      clampScale, pageWMm, pageHMm, pageWIn, pageHIn, paperSizeInches, MM_PER_INCH,
      max_def, min_def, LayoutMetrics.mk.injEq]
  refine ⟨?_, ?_, ?_⟩
  case refine_3 =>
    intro h
    have h2 := congrArg List.head? h
    simp only [drawCutGuidelines, List.head?, Option.some.injEq, Segment.mk.injEq] at h2
    norm_num at h2
  · rw [createCardSlot_eq _ _ 1 (by norm_num) (by norm_num), m0]
    simp only [Option.some.injEq, SlotRect.mk.injEq]
    norm_num [slotOriginX, slotOriginY, slotCardWpx, slotCardHpx, mmToPx, jsRound,
      MM_PER_INCH, COLS]
  · rw [createCardSlot_eq _ _ 1 (by norm_num) (by norm_num), m3]
    simp only [Option.some.injEq, SlotRect.mk.injEq]
    norm_num [slotOriginX, slotOriginY, slotCardWpx, slotCardHpx, mmToPx, jsRound,
      MM_PER_INCH, COLS]

/-- C3 amended: the cut-guide lines are drawn exactly on the slot boundaries
(the outer bleed boundary), not inset to the trim line, so for any fixed
metrics the facing guide lines of two adjacent slots coincide into a single
shared line; because the slot geometry includes bleed, the absolute pixel
positions of the guides change with the bleed value (see the
counterexample) and coincide with the trim boundary only when bleed is 0. -/
theorem cut_guides_on_slot_boundaries (m : LayoutMetrics) (dpi e : ℚ) (p : ℕ)
    (hp : 1 ≤ p) (h9 : p ≤ 9) :
    (p % 3 ≠ 0 →
      ∃ r r2, createCardSlot m dpi p = some r ∧ createCardSlot m dpi (p+1) = some r2
        ∧ ∃ s, s ∈ drawCutGuidelines r e ∧ s ∈ drawCutGuidelines r2 e
          ∧ s.x1 = (r.x : ℚ) + (r.w : ℚ) + 1/2 ∧ s.x1 = (r2.x : ℚ) + 1/2)
    ∧ (p + 3 ≤ 9 →
      ∃ r r3, createCardSlot m dpi p = some r ∧ createCardSlot m dpi (p+3) = some r3
        ∧ ∃ s, s ∈ drawCutGuidelines r e ∧ s ∈ drawCutGuidelines r3 e
          ∧ s.y1 = (r.y : ℚ) + (r.h : ℚ) + 1/2 ∧ s.y1 = (r3.y : ℚ) + 1/2) := by
  constructor
  · intro hcol
    refine ⟨_, _, createCardSlot_eq m dpi p hp h9,
      createCardSlot_eq m dpi (p+1) (by omega) (by omega), ?_⟩
    apply guides_coincide_horiz
    · show slotOriginX m dpi + (((p + 1 - 1) % COLS : ℕ) : ℤ) * slotCardWpx m dpi
        = slotOriginX m dpi + (((p - 1) % COLS : ℕ) : ℤ) * slotCardWpx m dpi
          + slotCardWpx m dpi
      have hc : (p + 1 - 1) % COLS = (p - 1) % COLS + 1 := by
        simp only [COLS]; omega
      rw [hc]
      push_cast
      ring
    · show slotOriginY m dpi + (((p + 1 - 1) / COLS : ℕ) : ℤ) * slotCardHpx m dpi
        = slotOriginY m dpi + (((p - 1) / COLS : ℕ) : ℤ) * slotCardHpx m dpi
      have hr : (p + 1 - 1) / COLS = (p - 1) / COLS := by
        simp only [COLS]; omega
      rw [hr]
    · rfl
  · intro h6
    refine ⟨_, _, createCardSlot_eq m dpi p hp h9,
      createCardSlot_eq m dpi (p+3) (by omega) (by omega), ?_⟩
    apply guides_coincide_vert
    · show slotOriginY m dpi + (((p + 3 - 1) / COLS : ℕ) : ℤ) * slotCardHpx m dpi
        = slotOriginY m dpi + (((p - 1) / COLS : ℕ) : ℤ) * slotCardHpx m dpi
          + slotCardHpx m dpi
      have hr : (p + 3 - 1) / COLS = (p - 1) / COLS + 1 := by
        simp only [COLS]; omega
      rw [hr]
      push_cast
      ring
    · show slotOriginX m dpi + (((p + 3 - 1) % COLS : ℕ) : ℤ) * slotCardWpx m dpi
        = slotOriginX m dpi + (((p - 1) % COLS : ℕ) : ℤ) * slotCardWpx m dpi
      have hc : (p + 3 - 1) % COLS = (p - 1) % COLS := by
        simp only [COLS]; omega
      rw [hc]
    · rfl

/-- C3 witness: at position 1 with bleed 1 metrics, dpi 300 and no extension
the amended statement is realised concretely. -/
theorem cut_guides_on_slot_boundaries_witness :
    (1 % 3 ≠ 0) ∧
    (∃ r r2, createCardSlot (computeLayoutMetrics (optsBleed 1)) 300 1 = some r
      ∧ createCardSlot (computeLayoutMetrics (optsBleed 1)) 300 2 = some r2
      ∧ ∃ s, s ∈ drawCutGuidelines r 0 ∧ s ∈ drawCutGuidelines r2 0
        ∧ s.x1 = (r.x : ℚ) + (r.w : ℚ) + 1/2 ∧ s.x1 = (r2.x : ℚ) + 1/2) :=
  ⟨by decide,
    (cut_guides_on_slot_boundaries (computeLayoutMetrics (optsBleed 1)) 300 0 1
      (by decide) (by decide)).1 (by decide)⟩

/-- C6: for every ExportOptions with dpi at least 1 the nine slot rectangles
have identical positive width and height, and they tile the grid exactly:
the right edge of each slot is the left edge of its horizontal neighbour and
the bottom edge is the top edge of its vertical neighbour, with no gaps and
no overlaps. -/
theorem slots_tile_grid (opts : ExportOptions) (hdpi : 1 ≤ opts.dpi) (p : ℕ)
    (hp : 1 ≤ p) (h9 : p ≤ 9) :
    ∃ r, createCardSlot (computeLayoutMetrics opts) opts.dpi p = some r
      ∧ r.w = slotCardWpx (computeLayoutMetrics opts) opts.dpi
      ∧ r.h = slotCardHpx (computeLayoutMetrics opts) opts.dpi
      ∧ 0 < r.w ∧ 0 < r.h
      ∧ (p % 3 ≠ 0 →
          ∃ r2, createCardSlot (computeLayoutMetrics opts) opts.dpi (p+1) = some r2
            ∧ r2.x = r.x + r.w ∧ r2.y = r.y ∧ r2.w = r.w ∧ r2.h = r.h)
      ∧ (p + 3 ≤ 9 →
          ∃ r3, createCardSlot (computeLayoutMetrics opts) opts.dpi (p+3) = some r3
            ∧ r3.y = r.y + r.h ∧ r3.x = r.x ∧ r3.w = r.w ∧ r3.h = r.h) := by
  refine ⟨_, createCardSlot_eq _ _ p hp h9, rfl, rfl,
    slotCardWpx_pos opts hdpi, slotCardHpx_pos opts hdpi, ?_, ?_⟩
  · intro hcol
    refine ⟨_, createCardSlot_eq _ _ (p+1) (by omega) (by omega), ?_, ?_, rfl, rfl⟩
    · show slotOriginX (computeLayoutMetrics opts) opts.dpi
          + (((p + 1 - 1) % COLS : ℕ) : ℤ) * slotCardWpx (computeLayoutMetrics opts) opts.dpi
        = slotOriginX (computeLayoutMetrics opts) opts.dpi
          + (((p - 1) % COLS : ℕ) : ℤ) * slotCardWpx (computeLayoutMetrics opts) opts.dpi
          + slotCardWpx (computeLayoutMetrics opts) opts.dpi
      have hc : (p + 1 - 1) % COLS = (p - 1) % COLS + 1 := by
        simp only [COLS]; omega
      rw [hc]; push_cast; ring
    · show slotOriginY (computeLayoutMetrics opts) opts.dpi
          + (((p + 1 - 1) / COLS : ℕ) : ℤ) * slotCardHpx (computeLayoutMetrics opts) opts.dpi
        = slotOriginY (computeLayoutMetrics opts) opts.dpi
          + (((p - 1) / COLS : ℕ) : ℤ) * slotCardHpx (computeLayoutMetrics opts) opts.dpi
      have hr : (p + 1 - 1) / COLS = (p - 1) / COLS := by
        simp only [COLS]; omega
      rw [hr]
  · intro h6
    refine ⟨_, createCardSlot_eq _ _ (p+3) (by omega) (by omega), ?_, ?_, rfl, rfl⟩
    · show slotOriginY (computeLayoutMetrics opts) opts.dpi
          + (((p + 3 - 1) / COLS : ℕ) : ℤ) * slotCardHpx (computeLayoutMetrics opts) opts.dpi
        = slotOriginY (computeLayoutMetrics opts) opts.dpi
          + (((p - 1) / COLS : ℕ) : ℤ) * slotCardHpx (computeLayoutMetrics opts) opts.dpi
          + slotCardHpx (computeLayoutMetrics opts) opts.dpi
      have hr : (p + 3 - 1) / COLS = (p - 1) / COLS + 1 := by
        simp only [COLS]; omega
      rw [hr]; push_cast; ring
    · show slotOriginX (computeLayoutMetrics opts) opts.dpi
          + (((p + 3 - 1) % COLS : ℕ) : ℤ) * slotCardWpx (computeLayoutMetrics opts) opts.dpi
        = slotOriginX (computeLayoutMetrics opts) opts.dpi
          + (((p - 1) % COLS : ℕ) : ℤ) * slotCardWpx (computeLayoutMetrics opts) opts.dpi
      have hc : (p + 3 - 1) % COLS = (p - 1) % COLS := by
        simp only [COLS]; omega
      rw [hc]

/-- C6 witness: position 1 of the bleed-1 options tiles with positions 2
and 4. -/
theorem slots_tile_grid_witness :
    (1 ≤ (optsBleed 1).dpi) ∧ (1 % 3 ≠ 0) ∧
    (∃ r, createCardSlot (computeLayoutMetrics (optsBleed 1)) (optsBleed 1).dpi 1 = some r
      ∧ r.w = slotCardWpx (computeLayoutMetrics (optsBleed 1)) (optsBleed 1).dpi
      ∧ r.h = slotCardHpx (computeLayoutMetrics (optsBleed 1)) (optsBleed 1).dpi
      ∧ 0 < r.w ∧ 0 < r.h
      ∧ (1 % 3 ≠ 0 →
          ∃ r2, createCardSlot (computeLayoutMetrics (optsBleed 1)) (optsBleed 1).dpi 2 = some r2
            ∧ r2.x = r.x + r.w ∧ r2.y = r.y ∧ r2.w = r.w ∧ r2.h = r.h)
      ∧ (1 + 3 ≤ 9 →
          ∃ r3, createCardSlot (computeLayoutMetrics (optsBleed 1)) (optsBleed 1).dpi 4 = some r3
            ∧ r3.y = r.y + r.h ∧ r3.x = r.x ∧ r3.w = r.w ∧ r3.h = r.h)) :=
  ⟨by norm_num [optsBleed], by decide,
    slots_tile_grid (optsBleed 1) (by norm_num [optsBleed]) 1 (by decide) (by decide)⟩

/-! ### Enhancement pipeline: data model and `maybeUpscalePages` -/

/-- Page role: front or back side of a sheet. -/
inductive Role | front | back
deriving DecidableEq, Repr

/-- LayoutImage: an image reference whose URL the pipeline rewrites in place.
A falsy url (`if (!url) continue`) is modelled by the empty string. -/
structure LayoutImage where
  url : String
  name : Option String
deriving DecidableEq, Repr

/-- LayoutPage: one sheet side holding an ordered list of image
references. -/
structure LayoutPage where
  role : Role
  images : List LayoutImage
deriving DecidableEq, Repr

/-- One UpscaleProgress event as emitted by `emitUpscaleProgress`. -/
structure UpscaleProgress where
  current : ℕ
  total : ℕ
  done : Bool
deriving DecidableEq, Repr

/-- The skip test of `maybeUpscalePages`: an image is processed only when its
url is non-empty and, on a back page, is neither the detected default back
url (`dbu`) nor matched by the /cardback\.jpg/i heuristic, which is modelled
as the predicate `cb`. -/
def eligibleUrl (dbu : Option String) (cb : String → Bool) (r : Role) (url : String) : Bool :=
  if url = "" then false
  else if r = Role.back ∧ (dbu = some url ∨ cb url = true) then false
  else true

/-- JS `Set.add`: append if not already present (insertion-ordered set). -/
def insertUnique (l : List String) (u : String) : List String :=
  if u ∈ l then l else l ++ [u]

/-- One step of the eligibility scan that builds the `unique` set. -/
def addEligible (dbu : Option String) (cb : String → Bool) (r : Role)
    (acc : List String) (img : LayoutImage) : List String :=
  if eligibleUrl dbu cb r img.url then insertUnique acc img.url else acc

/-- The `unique` set of eligible URLs, in first-occurrence order; its length
is the `total` of the run. -/
def uniqueEligible (dbu : Option String) (cb : String → Bool)
    (pages : List LayoutPage) : List String :=
  pages.foldl (fun acc pg => pg.images.foldl (addEligible dbu cb pg.role) acc) []

/-- Mutable state of one `maybeUpscalePages` run: the per-run dedup cache
(original url to upscaled data url), the `current` counter, the emitted
progress events (in order) and the URLs passed to `upscaleWithSd` (in
order). -/
structure PipeSt where
  cache : List (String × String)
  current : ℕ
  events : List UpscaleProgress
  calls : List String
deriving Repr

/-- `Map.get` on the dedup cache. -/
def lookupCache (cache : List (String × String)) (u : String) : Option String :=
  match cache with
  | [] => none
  | (k, v) :: rest => if k = u then some v else lookupCache rest u

/-- The body of the processing loop for a single image.  `sd` is the
`upscaleWithSd` oracle: `some d` is a successful result with data url `d`,
`none` is a failed call (`res.ok` false).  On a cache hit the url is
rewritten and nothing else happens; otherwise `upscaleWithSd` is called,
a success is cached and rewrites the url, then `current` is incremented and
a progress event `done: current >= total` is emitted either way. -/
def processImage (sd : String → Option String) (dbu : Option String)
    (cb : String → Bool) (total : ℕ) (r : Role) (st : PipeSt) (img : LayoutImage) :
    PipeSt × LayoutImage :=
  if eligibleUrl dbu cb r img.url then
    match lookupCache st.cache img.url with
    | some d => (st, { img with url := d })
    | none =>
        match sd img.url with
        | some d =>
            ({ cache := st.cache ++ [(img.url, d)]
               current := st.current + 1
               events := st.events
                 ++ [{ current := st.current + 1, total := total
                       done := decide (total ≤ st.current + 1) }]
               calls := st.calls ++ [img.url] },
             { img with url := d })
        | none =>
            ({ cache := st.cache
               current := st.current + 1
               events := st.events
                 ++ [{ current := st.current + 1, total := total
                       done := decide (total ≤ st.current + 1) }]
               calls := st.calls ++ [img.url] },
             img)
  else (st, img)

/-- Process the images of one page in order, threading the state. -/
def processImages (sd : String → Option String) (dbu : Option String)
    (cb : String → Bool) (total : ℕ) (r : Role) :
    PipeSt → List LayoutImage → PipeSt × List LayoutImage
  | st, [] => (st, [])
  | st, img :: rest =>
      let pr := processImage sd dbu cb total r st img
      let prs := processImages sd dbu cb total r pr.1 rest
      (prs.1, pr.2 :: prs.2)

/-- Process all pages in order, threading the state. -/
def processPages (sd : String → Option String) (dbu : Option String)
    (cb : String → Bool) (total : ℕ) :
    PipeSt → List LayoutPage → PipeSt × List LayoutPage
  | st, [] => (st, [])
  | st, pg :: rest =>
      let pr := processImages sd dbu cb total pg.role st pg.images
      let prs := processPages sd dbu cb total pr.1 rest
      (prs.1, { pg with images := pr.2 } :: prs.2)

/-- Observable outcome of one `maybeUpscalePages` run. -/
structure UpscaleRun where
  pages : List LayoutPage
  events : List UpscaleProgress
  calls : List String
deriving Repr

/-- The initial progress event `emitUpscaleProgress(0, total, total === 0)`. -/
def initEvent (total : ℕ) : UpscaleProgress :=
  { current := 0, total := total, done := decide (total = 0) }

/-- `maybeUpscalePages` from `src/lib/export.ts`: build the unique eligible
set, emit the initial event, run the sequential loop, then emit the
terminating `(total, total, done: true)` event. -/
def maybeUpscalePages (sd : String → Option String) (dbu : Option String)
    (cb : String → Bool) (pages : List LayoutPage) : UpscaleRun :=
  let total := (uniqueEligible dbu cb pages).length
  let st0 : PipeSt :=
    { cache := [], current := 0, events := [initEvent total], calls := [] }
  let pr := processPages sd dbu cb total st0 pages
  { pages := pr.2
    events := pr.1.events ++ [{ current := total, total := total, done := true }]
    calls := pr.1.calls }

/-- Pointwise specification of the URL rewrite performed by the pipeline:
an eligible image whose oracle call succeeds gets the data url, every other
image keeps its original url. -/
def rewriteSpec (sd : String → Option String) (dbu : Option String)
    (cb : String → Bool) (r : Role) (img : LayoutImage) : LayoutImage :=
  if eligibleUrl dbu cb r img.url then
    match sd img.url with
    | some d => { img with url := d }
    | none => img
  else img

/-- The progress events emitted by the loop in an all-success run with
counter values 1..c. -/
def loopEvents (total : ℕ) : ℕ → List UpscaleProgress
  | 0 => []
  | c + 1 => loopEvents total c
      ++ [{ current := c + 1, total := total, done := decide (total ≤ c + 1) }]

/-! ### Pipeline lemmas: cache invariant and pointwise rewrite -/

/-- Every cache entry records a successful oracle result. -/
def cacheOK (sd : String → Option String) (cache : List (String × String)) : Prop :=
  ∀ p ∈ cache, sd p.1 = some p.2

theorem lookupCache_mem (cache : List (String × String)) (u d : String)
    (h : lookupCache cache u = some d) : (u, d) ∈ cache := by
  induction cache with
  | nil => simp [lookupCache] at h
  | cons kv rest ih =>
      obtain ⟨k, v⟩ := kv
      unfold lookupCache at h
      by_cases hk : k = u
      · rw [if_pos hk] at h
        subst hk
        injection h with h
        subst h
        exact List.mem_cons_self _ _
      · rw [if_neg hk] at h
        exact List.mem_cons_of_mem _ (ih h)

theorem lookupCache_eq_none (cache : List (String × String)) (u : String)
    (h : u ∉ cache.map Prod.fst) : lookupCache cache u = none := by
  induction cache with
  | nil => rfl
  | cons kv rest ih =>
      obtain ⟨k, v⟩ := kv
      simp only [List.map_cons, List.mem_cons] at h
      push_neg at h
      unfold lookupCache
      rw [if_neg (fun hk => h.1 hk.symm)]
      exact ih h.2

theorem lookupCache_isSome (cache : List (String × String)) (u : String)
    (h : u ∈ cache.map Prod.fst) : (lookupCache cache u).isSome := by
  induction cache with
  | nil => simp at h
  | cons kv rest ih =>
      obtain ⟨k, v⟩ := kv
      simp only [List.map_cons, List.mem_cons] at h
      unfold lookupCache
      by_cases hk : k = u
      · rw [if_pos hk]; rfl
      · rw [if_neg hk]
        exact ih (h.resolve_left (fun hu => hk hu.symm))

theorem mem_insertUnique (l : List String) (u v : String) :
    v ∈ insertUnique l u ↔ v ∈ l ∨ v = u := by
  unfold insertUnique
  by_cases hu : u ∈ l
  · rw [if_pos hu]
    constructor
    · exact Or.inl
    · rintro (h | rfl)
      · exact h
      · exact hu
  · rw [if_neg hu]
    simp [List.mem_append]

theorem insertUnique_of_mem (l : List String) (u : String) (hu : u ∈ l) :
    insertUnique l u = l := if_pos hu

theorem insertUnique_of_not_mem (l : List String) (u : String) (hu : u ∉ l) :
    insertUnique l u = l ++ [u] := if_neg hu

theorem processImage_spec (sd : String → Option String) (dbu : Option String)
    (cb : String → Bool) (total : ℕ) (r : Role) (st : PipeSt) (img : LayoutImage)
    (hc : cacheOK sd st.cache) :
    (processImage sd dbu cb total r st img).2 = rewriteSpec sd dbu cb r img
    ∧ cacheOK sd (processImage sd dbu cb total r st img).1.cache := by
  unfold processImage rewriteSpec
  by_cases he : eligibleUrl dbu cb r img.url = true
  · rw [if_pos he, if_pos he]
    cases hl : lookupCache st.cache img.url with
    | some d =>
        have hsd : sd img.url = some d := hc _ (lookupCache_mem _ _ _ hl)
        rw [hsd]
        exact ⟨rfl, hc⟩
    | none =>
        cases hs : sd img.url with
        | some d =>
            refine ⟨rfl, ?_⟩
            intro p hp
            rcases List.mem_append.mp hp with h | h
            · exact hc p h
            · simp only [List.mem_singleton] at h
              subst h
              exact hs
        | none => exact ⟨rfl, hc⟩
  · rw [if_neg he, if_neg he]
    exact ⟨rfl, hc⟩

theorem processImages_spec (sd : String → Option String) (dbu : Option String)
    (cb : String → Bool) (total : ℕ) (r : Role) (imgs : List LayoutImage) :
    ∀ st : PipeSt, cacheOK sd st.cache →
      (processImages sd dbu cb total r st imgs).2 = imgs.map (rewriteSpec sd dbu cb r)
      ∧ cacheOK sd (processImages sd dbu cb total r st imgs).1.cache := by
  induction imgs with
  | nil =>
      intro st hc
      exact ⟨rfl, hc⟩
  | cons img rest ih =>
      intro st hc
      obtain ⟨h1, hc1⟩ := processImage_spec sd dbu cb total r st img hc
      obtain ⟨h2, hc2⟩ := ih (processImage sd dbu cb total r st img).1 hc1
      constructor
      · simp only [processImages, List.map_cons]
        rw [h1, h2]
      · simp only [processImages]
        exact hc2

theorem processPages_spec (sd : String → Option String) (dbu : Option String)
    (cb : String → Bool) (total : ℕ) (pages : List LayoutPage) :
    ∀ st : PipeSt, cacheOK sd st.cache →
      (processPages sd dbu cb total st pages).2
        = pages.map (fun pg => { pg with images := pg.images.map (rewriteSpec sd dbu cb pg.role) })
      ∧ cacheOK sd (processPages sd dbu cb total st pages).1.cache := by
  induction pages with
  | nil =>
      intro st hc
      exact ⟨rfl, hc⟩
  | cons pg rest ih =>
      intro st hc
      obtain ⟨h1, hc1⟩ := processImages_spec sd dbu cb total pg.role pg.images st hc
      obtain ⟨h2, hc2⟩ := ih (processImages sd dbu cb total pg.role st pg.images).1 hc1
      constructor
      · simp only [processPages, List.map_cons]
        rw [h1, h2]
      · simp only [processPages]
        exact hc2

/-- The pipeline's in-place URL mutation, characterized pointwise: the output
batch is the input batch with every image rewritten by `rewriteSpec`. -/
theorem maybeUpscalePages_pages_eq (sd : String → Option String) (dbu : Option String)
    (cb : String → Bool) (pages : List LayoutPage) :
    (maybeUpscalePages sd dbu cb pages).pages
      = pages.map (fun pg => { pg with images := pg.images.map (rewriteSpec sd dbu cb pg.role) }) := by
  unfold maybeUpscalePages
  exact (processPages_spec sd dbu cb _ pages _ (fun p hp => absurd hp (List.not_mem_nil p))).1

theorem forall₂_map_self {α β : Type} (R : α → β → Prop) (f : α → β) (l : List α)
    (h : ∀ a ∈ l, R a (f a)) : List.Forall₂ R l (l.map f) := by
  induction l with
  | nil => exact List.Forall₂.nil
  | cons a rest ih =>
      exact List.Forall₂.cons (h a (List.mem_cons_self a rest))
        (ih (fun b hb => h b (List.mem_cons_of_mem a hb)))

/-! ### Pipeline lemmas: which URLs get called -/

theorem processImage_calls (sd : String → Option String) (dbu : Option String)
    (cb : String → Bool) (total : ℕ) (r : Role) (st : PipeSt) (img : LayoutImage)
    (seen : List String)
    (hcalls : ∀ u, u ∈ st.calls ↔ u ∈ seen)
    (hkeys : ∀ u ∈ st.cache.map Prod.fst, u ∈ seen) :
    (∀ u, u ∈ (processImage sd dbu cb total r st img).1.calls
        ↔ u ∈ addEligible dbu cb r seen img)
    ∧ (∀ u ∈ (processImage sd dbu cb total r st img).1.cache.map Prod.fst,
        u ∈ addEligible dbu cb r seen img) := by
  unfold processImage addEligible
  by_cases he : eligibleUrl dbu cb r img.url = true
  · rw [if_pos he, if_pos he]
    cases hl : lookupCache st.cache img.url with
    | some d =>
        have hmem : img.url ∈ seen :=
          hkeys _ (List.mem_map_of_mem Prod.fst (lookupCache_mem _ _ _ hl))
        constructor
        · intro u
          rw [hcalls u, mem_insertUnique]
          constructor
          · exact Or.inl
          · rintro (h | rfl)
            · exact h
            · exact hmem
        · intro u hu
          rw [mem_insertUnique]
          exact Or.inl (hkeys u hu)
    | none =>
        cases hs : sd img.url with
        | some d =>
            constructor
            · intro u
              simp only [List.mem_append, List.mem_singleton]
              rw [hcalls u, mem_insertUnique]
            · intro u hu
              simp only [List.map_append, List.map_cons, List.map_nil,
                List.mem_append, List.mem_singleton] at hu
              rw [mem_insertUnique]
              rcases hu with h | h
              · exact Or.inl (hkeys u h)
              · exact Or.inr h
        | none =>
            constructor
            · intro u
              simp only [List.mem_append, List.mem_singleton]
              rw [hcalls u, mem_insertUnique]
            · intro u hu
              rw [mem_insertUnique]
              exact Or.inl (hkeys u hu)
  · rw [if_neg he, if_neg he]
    exact ⟨hcalls, hkeys⟩

theorem processImages_calls (sd : String → Option String) (dbu : Option String)
    (cb : String → Bool) (total : ℕ) (r : Role) (imgs : List LayoutImage) :
    ∀ (st : PipeSt) (seen : List String),
      (∀ u, u ∈ st.calls ↔ u ∈ seen) →
      (∀ u ∈ st.cache.map Prod.fst, u ∈ seen) →
      (∀ u, u ∈ (processImages sd dbu cb total r st imgs).1.calls
          ↔ u ∈ imgs.foldl (addEligible dbu cb r) seen)
      ∧ (∀ u ∈ (processImages sd dbu cb total r st imgs).1.cache.map Prod.fst,
          u ∈ imgs.foldl (addEligible dbu cb r) seen) := by
  induction imgs with
  | nil =>
      intro st seen hcalls hkeys
      exact ⟨hcalls, hkeys⟩
  | cons img rest ih =>
      intro st seen hcalls hkeys
      obtain ⟨h1, h2⟩ := processImage_calls sd dbu cb total r st img seen hcalls hkeys
      obtain ⟨h3, h4⟩ := ih (processImage sd dbu cb total r st img).1
        (addEligible dbu cb r seen img) h1 h2
      constructor
      · intro u
        simp only [processImages, List.foldl_cons]
        exact h3 u
      · intro u hu
        simp only [List.foldl_cons]
        exact h4 u (by simpa only [processImages] using hu)

theorem processPages_calls (sd : String → Option String) (dbu : Option String)
    (cb : String → Bool) (total : ℕ) (pages : List LayoutPage) :
    ∀ (st : PipeSt) (seen : List String),
      (∀ u, u ∈ st.calls ↔ u ∈ seen) →
      (∀ u ∈ st.cache.map Prod.fst, u ∈ seen) →
      (∀ u, u ∈ (processPages sd dbu cb total st pages).1.calls
          ↔ u ∈ pages.foldl
              (fun acc pg => pg.images.foldl (addEligible dbu cb pg.role) acc) seen) := by
  induction pages with
  | nil =>
      intro st seen hcalls _
      exact hcalls
  | cons pg rest ih =>
      intro st seen hcalls hkeys
      obtain ⟨h1, h2⟩ := processImages_calls sd dbu cb total pg.role pg.images st seen
        hcalls hkeys
      intro u
      simp only [processPages, List.foldl_cons]
      exact ih (processImages sd dbu cb total pg.role st pg.images).1
        (pg.images.foldl (addEligible dbu cb pg.role) seen) h1 h2 u

/-- For any oracle (success or failure), the set of URLs passed to
`upscaleWithSd` equals the set of distinct eligible URLs. -/
theorem mem_calls_iff (sd : String → Option String) (dbu : Option String)
    (cb : String → Bool) (pages : List LayoutPage) (u : String) :
    u ∈ (maybeUpscalePages sd dbu cb pages).calls ↔ u ∈ uniqueEligible dbu cb pages := by
  unfold maybeUpscalePages uniqueEligible
  exact processPages_calls sd dbu cb _ pages _ [] (by simp) (by simp) u

theorem mem_foldl_addEligible (dbu : Option String) (cb : String → Bool) (r : Role)
    (imgs : List LayoutImage) :
    ∀ (acc : List String) (u : String),
      u ∈ imgs.foldl (addEligible dbu cb r) acc
      ↔ u ∈ acc ∨ ∃ img, img ∈ imgs ∧ img.url = u ∧ eligibleUrl dbu cb r img.url = true := by
  induction imgs with
  | nil => simp
  | cons img rest ih =>
      intro acc u
      rw [List.foldl_cons, ih]
      unfold addEligible
      by_cases he : eligibleUrl dbu cb r img.url = true
      · rw [if_pos he]
        rw [mem_insertUnique]
        constructor
        · rintro ((h | rfl) | ⟨i, hi, rfl, hel⟩)
          · exact Or.inl h
          · exact Or.inr ⟨img, List.mem_cons_self _ _, rfl, he⟩
          · exact Or.inr ⟨i, List.mem_cons_of_mem _ hi, rfl, hel⟩
        · rintro (h | ⟨i, hi, rfl, hel⟩)
          · exact Or.inl (Or.inl h)
          · rcases List.mem_cons.mp hi with rfl | hi2
            · exact Or.inl (Or.inr rfl)
            · exact Or.inr ⟨i, hi2, rfl, hel⟩
      · rw [if_neg he]
        constructor
        · rintro (h | ⟨i, hi, rfl, hel⟩)
          · exact Or.inl h
          · exact Or.inr ⟨i, List.mem_cons_of_mem _ hi, rfl, hel⟩
        · rintro (h | ⟨i, hi, rfl, hel⟩)
          · exact Or.inl h
          · rcases List.mem_cons.mp hi with rfl | hi2
            · exact absurd hel he
            · exact Or.inr ⟨i, hi2, rfl, hel⟩

/-- Membership in the unique eligible set is exactly having an eligible
occurrence somewhere in the batch. -/
theorem mem_uniqueEligible (dbu : Option String) (cb : String → Bool)
    (pages : List LayoutPage) (u : String) :
    u ∈ uniqueEligible dbu cb pages
      ↔ ∃ pg, pg ∈ pages ∧ ∃ img, img ∈ pg.images ∧ img.url = u
          ∧ eligibleUrl dbu cb pg.role img.url = true := by
  have haux : ∀ (ps : List LayoutPage) (acc : List String) (v : String),
      v ∈ ps.foldl (fun acc pg => pg.images.foldl (addEligible dbu cb pg.role) acc) acc
      ↔ v ∈ acc ∨ ∃ pg, pg ∈ ps ∧ ∃ img, img ∈ pg.images ∧ img.url = v
          ∧ eligibleUrl dbu cb pg.role img.url = true := by
    intro ps
    induction ps with
    | nil => simp
    | cons pg rest ih =>
        intro acc v
        rw [List.foldl_cons, ih, mem_foldl_addEligible]
        constructor
        · rintro ((h | ⟨i, hi, rfl, hel⟩) | ⟨q, hq, i, hi, rfl, hel⟩)
          · exact Or.inl h
          · exact Or.inr ⟨pg, List.mem_cons_self _ _, i, hi, rfl, hel⟩
          · exact Or.inr ⟨q, List.mem_cons_of_mem _ hq, i, hi, rfl, hel⟩
        · rintro (h | ⟨q, hq, i, hi, rfl, hel⟩)
          · exact Or.inl (Or.inl h)
          · rcases List.mem_cons.mp hq with rfl | hq2
            · exact Or.inl (Or.inr ⟨i, hi, rfl, hel⟩)
            · exact Or.inr ⟨q, hq2, i, hi, rfl, hel⟩
  unfold uniqueEligible
  rw [haux pages [] u]
  simp

/-! ### Pipeline lemmas: all-success runs -/

theorem processImage_success (sd : String → Option String) (dbu : Option String)
    (cb : String → Bool) (K : ℕ) (r : Role) (st : PipeSt) (img : LayoutImage)
    (seen : List String)
    (hsd : eligibleUrl dbu cb r img.url = true → (sd img.url).isSome = true)
    (hkeys : st.cache.map Prod.fst = seen)
    (hcalls : st.calls = seen)
    (hcur : st.current = seen.length)
    (hev : st.events = initEvent K :: loopEvents K st.current) :
    (processImage sd dbu cb K r st img).1.cache.map Prod.fst
        = addEligible dbu cb r seen img
    ∧ (processImage sd dbu cb K r st img).1.calls = addEligible dbu cb r seen img
    ∧ (processImage sd dbu cb K r st img).1.current
        = (addEligible dbu cb r seen img).length
    ∧ (processImage sd dbu cb K r st img).1.events
        = initEvent K :: loopEvents K (processImage sd dbu cb K r st img).1.current := by
  unfold processImage addEligible
  by_cases he : eligibleUrl dbu cb r img.url = true
  · rw [if_pos he, if_pos he]
    by_cases hm : img.url ∈ seen
    · have hsome : (lookupCache st.cache img.url).isSome :=
        lookupCache_isSome _ _ (by rw [hkeys]; exact hm)
      obtain ⟨d, hd⟩ := Option.isSome_iff_exists.mp hsome
      simp only [hd]
      rw [insertUnique_of_mem seen _ hm]
      exact ⟨hkeys, hcalls, hcur, hev⟩
    · have hl : lookupCache st.cache img.url = none :=
        lookupCache_eq_none _ _ (by rw [hkeys]; exact hm)
      obtain ⟨d, hd⟩ := Option.isSome_iff_exists.mp (hsd he)
      simp only [hl, hd]
      rw [insertUnique_of_not_mem seen _ hm]
      refine ⟨?_, ?_, ?_, ?_⟩
      · simp [hkeys]
      · rw [hcalls]
      · simp [hcur]
      · rw [hev, hcur]
        simp [loopEvents]
  · rw [if_neg he, if_neg he]
    exact ⟨hkeys, hcalls, hcur, hev⟩

theorem processImages_success (sd : String → Option String) (dbu : Option String)
    (cb : String → Bool) (K : ℕ) (r : Role) (imgs : List LayoutImage) :
    ∀ (st : PipeSt) (seen : List String),
      (∀ img ∈ imgs, eligibleUrl dbu cb r img.url = true → (sd img.url).isSome = true) →
      st.cache.map Prod.fst = seen → st.calls = seen → st.current = seen.length →
      st.events = initEvent K :: loopEvents K st.current →
      (processImages sd dbu cb K r st imgs).1.cache.map Prod.fst
          = imgs.foldl (addEligible dbu cb r) seen
      ∧ (processImages sd dbu cb K r st imgs).1.calls
          = imgs.foldl (addEligible dbu cb r) seen
      ∧ (processImages sd dbu cb K r st imgs).1.current
          = (imgs.foldl (addEligible dbu cb r) seen).length
      ∧ (processImages sd dbu cb K r st imgs).1.events
          = initEvent K :: loopEvents K (processImages sd dbu cb K r st imgs).1.current := by
  induction imgs with
  | nil =>
      intro st seen _ hkeys hcalls hcur hev
      exact ⟨hkeys, hcalls, hcur, hev⟩
  | cons img rest ih =>
      intro st seen hsd hkeys hcalls hcur hev
      obtain ⟨h1, h2, h3, h4⟩ := processImage_success sd dbu cb K r st img seen
        (hsd img (List.mem_cons_self _ _)) hkeys hcalls hcur hev
      obtain ⟨g1, g2, g3, g4⟩ := ih (processImage sd dbu cb K r st img).1
        (addEligible dbu cb r seen img)
        (fun i hi => hsd i (List.mem_cons_of_mem _ hi)) h1 h2 h3 h4
      exact ⟨by simpa only [processImages, List.foldl_cons] using g1,
        by simpa only [processImages, List.foldl_cons] using g2,
        by simpa only [processImages, List.foldl_cons] using g3,
        by simpa only [processImages, List.foldl_cons] using g4⟩

theorem processPages_success (sd : String → Option String) (dbu : Option String)
    (cb : String → Bool) (K : ℕ) (pages : List LayoutPage) :
    ∀ (st : PipeSt) (seen : List String),
      (∀ pg ∈ pages, ∀ img ∈ pg.images,
        eligibleUrl dbu cb pg.role img.url = true → (sd img.url).isSome = true) →
      st.cache.map Prod.fst = seen → st.calls = seen → st.current = seen.length →
      st.events = initEvent K :: loopEvents K st.current →
      (processPages sd dbu cb K st pages).1.calls
          = pages.foldl
              (fun acc pg => pg.images.foldl (addEligible dbu cb pg.role) acc) seen
      ∧ (processPages sd dbu cb K st pages).1.current
          = (pages.foldl
              (fun acc pg => pg.images.foldl (addEligible dbu cb pg.role) acc) seen).length
      ∧ (processPages sd dbu cb K st pages).1.events
          = initEvent K :: loopEvents K (processPages sd dbu cb K st pages).1.current := by
  induction pages with
  | nil =>
      intro st seen _ _ hcalls hcur hev
      exact ⟨hcalls, hcur, hev⟩
  | cons pg rest ih =>
      intro st seen hsd hkeys hcalls hcur hev
      obtain ⟨h1, h2, h3, h4⟩ := processImages_success sd dbu cb K pg.role pg.images st seen
        (hsd pg (List.mem_cons_self _ _)) hkeys hcalls hcur hev
      obtain ⟨g2, g3, g4⟩ := ih (processImages sd dbu cb K pg.role st pg.images).1
        (pg.images.foldl (addEligible dbu cb pg.role) seen)
        (fun q hq => hsd q (List.mem_cons_of_mem _ hq)) h1 h2 h3 h4
      exact ⟨by simpa only [processPages, List.foldl_cons] using g2,
        by simpa only [processPages, List.foldl_cons] using g3,
        by simpa only [processPages, List.foldl_cons] using g4⟩

/-- In an all-success run the call list is exactly the unique eligible set
and the event list is the initial event, one loop event per distinct URL,
and the terminating event. -/
theorem maybeUpscalePages_success (sd : String → Option String) (dbu : Option String)
    (cb : String → Bool) (pages : List LayoutPage)
    (hsd : ∀ pg ∈ pages, ∀ img ∈ pg.images,
      eligibleUrl dbu cb pg.role img.url = true → (sd img.url).isSome = true) :
    (maybeUpscalePages sd dbu cb pages).calls = uniqueEligible dbu cb pages
    ∧ (maybeUpscalePages sd dbu cb pages).events
        = (initEvent (uniqueEligible dbu cb pages).length
            :: loopEvents (uniqueEligible dbu cb pages).length
                (uniqueEligible dbu cb pages).length)
          ++ [{ current := (uniqueEligible dbu cb pages).length
                total := (uniqueEligible dbu cb pages).length, done := true }] := by
  obtain ⟨h1, h2, h3⟩ := processPages_success sd dbu cb
    (uniqueEligible dbu cb pages).length pages
    { cache := [], current := 0
      events := [initEvent (uniqueEligible dbu cb pages).length], calls := [] } []
    hsd rfl rfl rfl (by simp [loopEvents])
  constructor
  · exact h1
  · show (processPages sd dbu cb _ _ pages).1.events ++ _ = _
    rw [h3, h2]
    rfl

theorem loopEvents_mem (K c : ℕ) :
    ∀ e ∈ loopEvents K c, e.total = K ∧ e.done = decide (K ≤ e.current)
      ∧ 1 ≤ e.current ∧ e.current ≤ c := by
  induction c with
  | zero => simp [loopEvents]
  | succ c ih =>
      intro e he
      rw [loopEvents] at he
      rcases List.mem_append.mp he with h | h
      · obtain ⟨t, d, l, u⟩ := ih e h
        exact ⟨t, d, l, Nat.le_succ_of_le u⟩
      · simp only [List.mem_singleton] at h
        subst h
        exact ⟨rfl, rfl, Nat.succ_le_succ (Nat.zero_le c), Nat.le_refl _⟩

theorem loopEvents_chain (K c : ℕ) :
    List.Chain' (fun a b => a.current ≤ b.current) (initEvent K :: loopEvents K c)
    ∧ ∃ e, (initEvent K :: loopEvents K c).getLast? = some e ∧ e.current = c := by
  induction c with
  | zero =>
      refine ⟨List.chain'_singleton _, initEvent K, rfl, rfl⟩
  | succ c ih =>
      obtain ⟨hch, e, hlast, hcur⟩ := ih
      have hsplit : initEvent K :: loopEvents K (c + 1)
          = (initEvent K :: loopEvents K c)
            ++ [{ current := c + 1, total := K, done := decide (K ≤ c + 1) }] := by
        simp [loopEvents]
      rw [hsplit]
      constructor
      · rw [List.chain'_append]
        refine ⟨hch, List.chain'_singleton _, ?_⟩
        intro x hx y hy
        rw [hlast, Option.mem_def, Option.some.injEq] at hx
        simp only [List.head?_cons, Option.mem_def, Option.some.injEq] at hy
        subst hx
        subst hy
        rw [hcur]
        exact Nat.le_succ c
      · exact ⟨_, List.getLast?_concat _, rfl⟩

theorem count_done_init_loop (K : ℕ) :
    ∀ c, c ≤ K →
      (((initEvent K :: loopEvents K c).filter (fun e => e.done)).length)
        = if K ≤ c then 1 else 0 := by
  intro c
  induction c with
  | zero =>
      intro _
      by_cases hK : K = 0
      · subst hK
        simp [loopEvents, initEvent]
      · rw [if_neg (by omega)]
        simp [loopEvents, initEvent, List.filter, hK]
  | succ c ih =>
      intro hc
      have hprev := ih (Nat.le_of_succ_le hc)
      have hKc : ¬ (K ≤ c) := by omega
      rw [if_neg hKc] at hprev
      have hsplit : initEvent K :: loopEvents K (c + 1)
          = (initEvent K :: loopEvents K c)
            ++ [{ current := c + 1, total := K, done := decide (K ≤ c + 1) }] := by
        simp [loopEvents]
      rw [hsplit, List.filter_append, List.length_append, hprev]
      by_cases hK1 : K ≤ c + 1
      · rw [if_pos hK1]
        simp [List.filter, hK1]
      · rw [if_neg hK1]
        simp [List.filter, hK1]

theorem nodup_insertUnique (l : List String) (u : String) (h : l.Nodup) :
    (insertUnique l u).Nodup := by
  unfold insertUnique
  split_ifs with hm
  · exact h
  · rw [List.nodup_append]
    refine ⟨h, List.nodup_singleton u, ?_⟩
    intro a ha hau
    rw [List.mem_singleton] at hau
    subst hau
    exact hm ha

theorem nodup_foldl_addEligible (dbu : Option String) (cb : String → Bool) (r : Role)
    (imgs : List LayoutImage) :
    ∀ acc : List String, acc.Nodup → (imgs.foldl (addEligible dbu cb r) acc).Nodup := by
  induction imgs with
  | nil => intro acc h; exact h
  | cons img rest ih =>
      intro acc h
      rw [List.foldl_cons]
      apply ih
      unfold addEligible
      split_ifs with he
      · exact nodup_insertUnique _ _ h
      · exact h

theorem nodup_uniqueEligible (dbu : Option String) (cb : String → Bool)
    (pages : List LayoutPage) : (uniqueEligible dbu cb pages).Nodup := by
  unfold uniqueEligible
  have haux : ∀ (ps : List LayoutPage) (acc : List String), acc.Nodup →
      (ps.foldl (fun acc pg => pg.images.foldl (addEligible dbu cb pg.role) acc) acc).Nodup := by
    intro ps
    induction ps with
    | nil => intro acc h; exact h
    | cons pg rest ih =>
        intro acc h
        rw [List.foldl_cons]
        exact ih _ (nodup_foldl_addEligible dbu cb pg.role pg.images acc h)
  exact haux pages [] List.nodup_nil

/-! ### Claim theorems on the enhancement pipeline -/

/-- Concrete batch used in counterexamples: one front page holding the same
URL twice. -/
def pagesTwoSame : List LayoutPage :=
  [{ role := Role.front
     images := [{ url := "u", name := none }, { url := "u", name := none }] }]

/-- Concrete batch: one front page holding one URL. -/
def pagesOne : List LayoutPage :=
  [{ role := Role.front, images := [{ url := "u", name := none }] }]

/-- The always-failing enhancement oracle. -/
def sdNone : String → Option String := fun _ => none

/-- The always-succeeding enhancement oracle. -/
def sdSome : String → Option String := fun _ => some "D"

/-- A cardback predicate matching nothing. -/
def cbNone : String → Bool := fun _ => false

/-- C1 counterexample: with one distinct URL occurring twice and a failing
oracle, the run emits four events: done is true on the second, third and
final emissions (three done events, not one), and current goes 0, 1, 2 and
then drops back to 1, so it is not monotonically non-decreasing.  (Even in
an all-success run the last loop event and the terminating event both carry
done true, so done is never true only on the final emission.) -/
theorem progress_events_counterexample :
    (maybeUpscalePages sdNone none cbNone pagesTwoSame).events
      = [{ current := 0, total := 1, done := false },
         { current := 1, total := 1, done := true },
         { current := 2, total := 1, done := true },
         { current := 1, total := 1, done := true }]
    ∧ ((maybeUpscalePages sdNone none cbNone pagesTwoSame).events.filter
        (fun e => e.done)).length = 3
    ∧ ¬ List.Chain' (fun a b => a.current ≤ b.current)
        (maybeUpscalePages sdNone none cbNone pagesTwoSame).events := by
  have he : (maybeUpscalePages sdNone none cbNone pagesTwoSame).events
      = [{ current := 0, total := 1, done := false },
         { current := 1, total := 1, done := true },
         { current := 2, total := 1, done := true },
         { current := 1, total := 1, done := true }] := by decide
  refine ⟨he, by decide, ?_⟩
  intro h
  rw [he] at h
  simp [List.chain'_cons] at h

/-- C1 amended: in a run where every enhancement call succeeds, every event
carries the same total K (the number of distinct eligible URLs), current is
monotonically non-decreasing, done is true exactly when current has reached
total, and the final emission is (K, K, done: true); because the loop's last
event and the terminating event coincide (and for K = 0 the initial event is
already done), every such run emits exactly two done-true events, not one. -/
theorem progress_events_shape (sd : String → Option String) (dbu : Option String)
    (cb : String → Bool) (pages : List LayoutPage)
    (hsd : ∀ pg ∈ pages, ∀ img ∈ pg.images,
      eligibleUrl dbu cb pg.role img.url = true → (sd img.url).isSome = true) :
    (∀ e ∈ (maybeUpscalePages sd dbu cb pages).events,
        e.total = (uniqueEligible dbu cb pages).length
        ∧ e.done = decide ((uniqueEligible dbu cb pages).length ≤ e.current))
    ∧ List.Chain' (fun a b => a.current ≤ b.current)
        (maybeUpscalePages sd dbu cb pages).events
    ∧ (maybeUpscalePages sd dbu cb pages).events.getLast?
        = some { current := (uniqueEligible dbu cb pages).length
                 total := (uniqueEligible dbu cb pages).length, done := true }
    ∧ ((maybeUpscalePages sd dbu cb pages).events.filter (fun e => e.done)).length = 2 := by
  obtain ⟨_, hev⟩ := maybeUpscalePages_success sd dbu cb pages hsd
  rw [hev]
  refine ⟨?_, ?_, ?_, ?_⟩
  · intro e he
    rcases List.mem_append.mp he with h | h
    · rcases List.mem_cons.mp h with rfl | h2
      · exact ⟨rfl, by simp [initEvent, Nat.le_zero]⟩
      · obtain ⟨t, d, _, _⟩ := loopEvents_mem _ _ e h2
        exact ⟨t, d⟩
    · simp only [List.mem_singleton] at h
      subst h
      exact ⟨rfl, by simp⟩
  · obtain ⟨hch, e, hlast, hcur⟩ :=
      loopEvents_chain (uniqueEligible dbu cb pages).length (uniqueEligible dbu cb pages).length
    rw [List.chain'_append]
    refine ⟨hch, List.chain'_singleton _, ?_⟩
    intro x hx y hy
    rw [hlast, Option.mem_def, Option.some.injEq] at hx
    simp only [List.head?_cons, Option.mem_def, Option.some.injEq] at hy
    subst hx
    subst hy
    simp [hcur]
  · exact List.getLast?_concat _
  · rw [List.filter_append, List.length_append,
      count_done_init_loop _ _ (le_refl _), if_pos (le_refl _)]
    simp [List.filter]

/-- C1 witness: one front page with one URL and a succeeding oracle emits
exactly two done-true events. -/
theorem progress_events_shape_witness :
    (∀ pg ∈ pagesOne, ∀ img ∈ pg.images,
      eligibleUrl none cbNone pg.role img.url = true → (sdSome img.url).isSome = true)
    ∧ ((maybeUpscalePages sdSome none cbNone pagesOne).events.filter
        (fun e => e.done)).length = 2 :=
  ⟨by decide, (progress_events_shape sdSome none cbNone pagesOne (by decide)).2.2.2⟩

/-- C2 counterexample: when the enhancement call for a URL fails, the URL is
not cached, so a second occurrence of the same URL triggers a second call:
the batch has K = 1 distinct eligible URL but upscaleWithSd is called
twice. -/
theorem calls_duplicated_on_failure_counterexample :
    (maybeUpscalePages sdNone none cbNone pagesTwoSame).calls = ["u", "u"]
    ∧ (uniqueEligible none cbNone pagesTwoSame).length = 1
    ∧ ¬ (maybeUpscalePages sdNone none cbNone pagesTwoSame).calls.length = 1 := by
  refine ⟨by decide, by decide, by decide⟩

/-- C2 amended: when every enhancement call succeeds, the pipeline calls
upscaleWithSd exactly once per distinct eligible URL, in first-occurrence
order: the call list equals the unique eligible set, has no duplicates and
has length K.  (When a call fails the URL stays uncached and later
occurrences are re-attempted, see the counterexample.) -/
theorem calls_equal_distinct_eligible (sd : String → Option String) (dbu : Option String)
    (cb : String → Bool) (pages : List LayoutPage)
    (hsd : ∀ pg ∈ pages, ∀ img ∈ pg.images,
      eligibleUrl dbu cb pg.role img.url = true → (sd img.url).isSome = true) :
    (maybeUpscalePages sd dbu cb pages).calls = uniqueEligible dbu cb pages
    ∧ (maybeUpscalePages sd dbu cb pages).calls.Nodup
    ∧ (maybeUpscalePages sd dbu cb pages).calls.length
        = (uniqueEligible dbu cb pages).length := by
  have h := (maybeUpscalePages_success sd dbu cb pages hsd).1
  exact ⟨h, h ▸ nodup_uniqueEligible dbu cb pages, by rw [h]⟩

/-- C2 witness: the duplicated-URL batch with a succeeding oracle makes
exactly one call. -/
theorem calls_equal_distinct_eligible_witness :
    (∀ pg ∈ pagesTwoSame, ∀ img ∈ pg.images,
      eligibleUrl none cbNone pg.role img.url = true → (sdSome img.url).isSome = true)
    ∧ (maybeUpscalePages sdSome none cbNone pagesTwoSame).calls
        = uniqueEligible none cbNone pagesTwoSame :=
  ⟨by decide, (calls_equal_distinct_eligible sdSome none cbNone pagesTwoSame (by decide)).1⟩

/-- C8: if the enhancement call for URL u fails, every image reference with
url u keeps its original url, while every eligible image whose call succeeds
with data url d is rewritten to d; the run is total (it never aborts). -/
theorem failed_urls_keep_original (sd : String → Option String) (dbu : Option String)
    (cb : String → Bool) (pages : List LayoutPage) (u : String)
    (hfail : sd u = none) :
    List.Forall₂ (fun pgIn pgOut =>
        pgOut.role = pgIn.role
        ∧ List.Forall₂ (fun iIn iOut =>
            (iIn.url = u → iOut.url = iIn.url)
            ∧ (∀ d, eligibleUrl dbu cb pgIn.role iIn.url = true →
                sd iIn.url = some d → iOut.url = d))
          pgIn.images pgOut.images)
      pages (maybeUpscalePages sd dbu cb pages).pages := by
  rw [maybeUpscalePages_pages_eq]
  apply forall₂_map_self
  intro pg _
  refine ⟨rfl, ?_⟩
  apply forall₂_map_self
  intro img _
  constructor
  · intro hu
    unfold rewriteSpec
    split_ifs with he
    · have hn : sd img.url = none := by rw [hu]; exact hfail
      simp [hn]
    · rfl
  · intro d he hsd2
    unfold rewriteSpec
    rw [if_pos he, hsd2]

/-- C8 witness: with an oracle failing on "bad" and succeeding elsewhere,
the "bad" image keeps its URL while the "ok" image is rewritten. -/
theorem failed_urls_keep_original_witness :
    ((fun v => if v = "bad" then none else some "D") "bad" = (none : Option String))
    ∧ List.Forall₂ (fun (pgIn pgOut : LayoutPage) =>
        pgOut.role = pgIn.role
        ∧ List.Forall₂ (fun (iIn iOut : LayoutImage) =>
            (iIn.url = "bad" → iOut.url = iIn.url)
            ∧ (∀ d, eligibleUrl none cbNone pgIn.role iIn.url = true →
                (fun v => if v = "bad" then none else some "D") iIn.url = some d →
                  iOut.url = d))
          pgIn.images pgOut.images)
      [{ role := Role.front
         images := [{ url := "bad", name := none }, { url := "ok", name := none }] }]
      (maybeUpscalePages (fun v => if v = "bad" then none else some "D") none cbNone
        [{ role := Role.front
           images := [{ url := "bad", name := none }, { url := "ok", name := none }] }]).pages :=
  ⟨by decide,
    failed_urls_keep_original (fun v => if v = "bad" then none else some "D") none cbNone
      [{ role := Role.front
         images := [{ url := "bad", name := none }, { url := "ok", name := none }] }]
      "bad" (by decide)⟩

/-- C9: a URL matching the default-back exclusion predicate (it equals the
detected default back url or the cardback heuristic matches it) is never
passed to upscaleWithSd when all its occurrences are on back-role pages, but
the same URL occurring (non-empty) on a front-role page is eligible and is
passed to upscaleWithSd. -/
theorem back_exclusion_is_side_specific (sd : String → Option String)
    (dbu : Option String) (cb : String → Bool) (pages : List LayoutPage) (u : String)
    (hmatch : dbu = some u ∨ cb u = true) :
    ((∀ pg ∈ pages, (∃ img ∈ pg.images, img.url = u) → pg.role = Role.back) →
        u ∉ (maybeUpscalePages sd dbu cb pages).calls)
    ∧ ((∃ pg ∈ pages, pg.role = Role.front ∧ ∃ img ∈ pg.images, img.url = u) →
        u ≠ "" → u ∈ (maybeUpscalePages sd dbu cb pages).calls) := by
  constructor
  · intro hback hu
    rw [mem_calls_iff, mem_uniqueEligible] at hu
    obtain ⟨pg, hpg, img, himg, hurl, hel⟩ := hu
    have hrole : pg.role = Role.back := hback pg hpg ⟨img, himg, hurl⟩
    unfold eligibleUrl at hel
    rw [hurl, hrole] at hel
    split_ifs at hel with h1 h2
    exact h2 ⟨rfl, hmatch⟩
  · rintro ⟨pg, hpg, hrole, img, himg, hurl⟩ hne
    rw [mem_calls_iff, mem_uniqueEligible]
    refine ⟨pg, hpg, img, himg, hurl, ?_⟩
    unfold eligibleUrl
    rw [hurl, hrole]
    rw [if_neg hne, if_neg (fun h => Role.noConfusion h.1)]

/-- C9 witness: "cardback.jpg" on a back page is never called, the same URL
on a front page is called. -/
theorem back_exclusion_is_side_specific_witness :
    ((fun v => v == "cardback.jpg") "cardback.jpg" = true)
    ∧ "cardback.jpg" ∉ (maybeUpscalePages sdSome none (fun v => v == "cardback.jpg")
        [{ role := Role.back, images := [{ url := "cardback.jpg", name := none }] }]).calls
    ∧ "cardback.jpg" ∈ (maybeUpscalePages sdSome none (fun v => v == "cardback.jpg")
        [{ role := Role.front, images := [{ url := "cardback.jpg", name := none }] }]).calls :=
  ⟨by decide,
    (back_exclusion_is_side_specific sdSome none (fun v => v == "cardback.jpg")
      [{ role := Role.back, images := [{ url := "cardback.jpg", name := none }] }]
      "cardback.jpg" (Or.inr (by decide))).1 (by decide),
    (back_exclusion_is_side_specific sdSome none (fun v => v == "cardback.jpg")
      [{ role := Role.front, images := [{ url := "cardback.jpg", name := none }] }]
      "cardback.jpg" (Or.inr (by decide))).2 (by decide) (by decide)⟩

/-! ### Page renderers -/

/-- One canvas drawing operation. -/
inductive DrawOp
  | fillRect (x y w h : ℤ) (color : String)
  | strokeRect (x y w h : ℤ) (color : String) (lineW : ℤ)
  | drawImage (url : String) (dx dy dw dh : ℤ)
  | line (x1 y1 x2 y2 : ℤ)
  | seg (s : Segment) (color : String)
deriving DecidableEq, Repr

/-- `drawPlaceholder` from the legacy `export.ts`: flat gray fill, inset
border, and a diagonal cross over the card rectangle. -/
def drawPlaceholder (x y w h : ℤ) : List DrawOp :=
  [ DrawOp.fillRect x y w h "#f3f4f6"
  , DrawOp.strokeRect (x + 1) (y + 1) (w - 2) (h - 2) "#9ca3af" 2
  , DrawOp.line (x + 6) (y + 6) (x + w - 6) (y + h - 6)
  , DrawOp.line (x + w - 6) (y + 6) (x + 6) (y + h - 6) ]

/-- `placeCardCenteredIntoSlot` from `src/lib/exportUtils.ts`.  The `load`
oracle stands for `loadImage(ensureCorsSafe(url))` and yields the natural
dimensions on success; `none` means both the fetch/blob path and the direct
image-element fallback failed, in which case the promise rejects — there is
no placeholder fallback in this renderer. -/
def placeCardCenteredIntoSlot (load : String → Option (ℕ × ℕ))
    (opts : ExportOptions) (m : LayoutMetrics) (slot : SlotRect)
    (imageUrl : String) : Except String DrawOp :=
  let insetPx := jsRound (mmToPx (max 0 opts.bleed) opts.dpi * m.scale)
  let innerX := slot.x + insetPx
  let innerY := slot.y + insetPx
  let innerW := slot.w - insetPx * 2
  let innerH := slot.h - insetPx * 2
  match load imageUrl with
  | none => Except.error "image load failed"
  | some (nw, nh) =>
      let cover := max ((innerW : ℚ) / (nw : ℚ)) ((innerH : ℚ) / (nh : ℚ))
      let dw := jsRound ((nw : ℚ) * cover)
      let dh := jsRound ((nh : ℚ) * cover)
      let dx := innerX + jsRound (((innerW - dw : ℤ) : ℚ) / 2)
      let dy := innerY + jsRound (((innerH - dh : ℤ) : ℚ) / 2)
      Except.ok (DrawOp.drawImage imageUrl dx dy dw dh)

/-- The cell loop of `renderLayoutPageToCanvas` (current renderer):
position `i + 1`, optional black bleed background, card placement, optional
cut guides.  Any placement failure aborts the whole page. -/
def renderCells (load : String → Option (ℕ × ℕ)) (opts : ExportOptions)
    (m : LayoutMetrics) : ℕ → List LayoutImage → Except String (List DrawOp)
  | _, [] => Except.ok []
  | i, img :: rest =>
      match createCardSlot m opts.dpi (i + 1) with
      | none => Except.error "position must be an integer 1..9"
      | some slot =>
          let bg : List DrawOp :=
            if 0 < opts.bleed then [DrawOp.fillRect slot.x slot.y slot.w slot.h "#000000"]
            else []
          match placeCardCenteredIntoSlot load opts m slot img.url with
          | Except.error e => Except.error e
          | Except.ok op =>
              let guides : List DrawOp :=
                if opts.drawCutMargins then
                  (drawCutGuidelines slot 0).map (fun s => DrawOp.seg s "#00FF00")
                else []
              match renderCells load opts m (i + 1) rest with
              | Except.error e => Except.error e
              | Except.ok ops => Except.ok (bg ++ op :: guides ++ ops)

/-- `renderLayoutPageToCanvas` from the current `export.ts`: fresh white
page, then up to nine cells in reading order.  A load failure rejects the
returned promise, so the page raster is not produced. -/
def renderLayoutPageToCanvas (load : String → Option (ℕ × ℕ))
    (layout : LayoutPage) (opts : ExportOptions) : Except String (List DrawOp) :=
  let m := computeLayoutMetrics opts
  let px := pagePixelSize opts
  match renderCells load opts m 0 (layout.images.take (COLS * ROWS)) with
  | Except.error e => Except.error e
  | Except.ok ops => Except.ok (DrawOp.fillRect 0 0 px.1 px.2 "#ffffff" :: ops)

/-! #### Legacy renderer `renderPageToPng` (margin-aware `export.ts` variant) -/

/-- Legacy auto scale from printer presets, applied only when
`printScaleCompensation` is falsy and a preset is set. -/
def legacyAutoScale (opts : ExportOptions) : ℚ :=
  if (opts.printScaleCompensation = none ∨ opts.printScaleCompensation = some 0)
      ∧ opts.printerPreset.isSome then
    match opts.printerPreset with
    | some PrinterPreset.epsonNormal => 1018/1000
    | some PrinterPreset.epsonUniform => 1024/1000
    | _ => 1
  else 1

/-- JS `opts.printScaleCompensation || autoScale`: 0 and undefined fall back
to the auto scale. -/
def jsOrScale (o : Option ℚ) (auto : ℚ) : ℚ :=
  match o with
  | none => auto
  | some v => if v = 0 then auto else v

/-- `computeLayoutMetrics` of the legacy `export.ts`: respects the user
margin (capped so the grid fits) and splits leftover space to center the
grid; scale may come from a printer preset. -/
def computeLayoutMetricsLegacy (opts : ExportOptions) : LayoutMetrics :=
  let cardWMm := CARD_MM_W + 2 * max 0 opts.bleed
  let cardHMm := CARD_MM_H + 2 * max 0 opts.bleed
  let totalGridWMm := (COLS : ℚ) * cardWMm
  let totalGridHMm := (ROWS : ℚ) * cardHMm
  let scale := clampScale (jsOrScale opts.printScaleCompensation (legacyAutoScale opts))
  let maxMarginXMm := max 0 ((pageWMm opts - totalGridWMm * scale) / 2)
  let maxMarginYMm := max 0 ((pageHMm opts - totalGridHMm * scale) / 2)
  let requestedMarginMm := max 0 opts.margin
  let baseMarginXMm := min requestedMarginMm maxMarginXMm
  let baseMarginYMm := min requestedMarginMm maxMarginYMm
  let leftoverXMm := pageWMm opts - totalGridWMm * scale - 2 * baseMarginXMm
  let leftoverYMm := pageHMm opts - totalGridHMm * scale - 2 * baseMarginYMm
  { cardWMm := cardWMm
    cardHMm := cardHMm
    marginXMm := baseMarginXMm + (if 0 < leftoverXMm then leftoverXMm / 2 else 0)
    marginYMm := baseMarginYMm + (if 0 < leftoverYMm then leftoverYMm / 2 else 0)
    offsetXMm := opts.alignmentOffsetX
    offsetYMm := opts.alignmentOffsetY
    scale := scale }

/-- Legacy card width in pixels: `Math.round(mmToPx(cardWMm) * scale)`. -/
def legacyCardW (opts : ExportOptions) : ℤ :=
  jsRound (mmToPx (computeLayoutMetricsLegacy opts).cardWMm opts.dpi
    * (computeLayoutMetricsLegacy opts).scale)

/-- Legacy card height in pixels. -/
def legacyCardH (opts : ExportOptions) : ℤ :=
  jsRound (mmToPx (computeLayoutMetricsLegacy opts).cardHMm opts.dpi
    * (computeLayoutMetricsLegacy opts).scale)

/-- Legacy grid origin x: `Math.round((marginXpx + offsetXpx) * scale)`
(this variant does multiply the margins by scale). -/
def legacyOriginX (opts : ExportOptions) : ℤ :=
  jsRound ((mmToPx (computeLayoutMetricsLegacy opts).marginXMm opts.dpi
    + mmToPx (computeLayoutMetricsLegacy opts).offsetXMm opts.dpi)
    * (computeLayoutMetricsLegacy opts).scale)

/-- Legacy grid origin y. -/
def legacyOriginY (opts : ExportOptions) : ℤ :=
  jsRound ((mmToPx (computeLayoutMetricsLegacy opts).marginYMm opts.dpi
    + mmToPx (computeLayoutMetricsLegacy opts).offsetYMm opts.dpi)
    * (computeLayoutMetricsLegacy opts).scale)

/-- The ops drawn for cell `i` of the legacy renderer: optional black bleed
backdrop, then either the cover-fitted image or the placeholder. -/
def legacyCellOps (load : String → Option (ℕ × ℕ)) (opts : ExportOptions)
    (i : ℕ) (img : LayoutImage) : List DrawOp :=
  let cardW := legacyCardW opts
  let cardH := legacyCardH opts
  let x := legacyOriginX opts + ((i % COLS : ℕ) : ℤ) * cardW
  let y := legacyOriginY opts + ((i / COLS : ℕ) : ℤ) * cardH
  let bleedBg : List DrawOp :=
    if 0 < max 0 opts.bleed then [DrawOp.fillRect x y cardW cardH "#000"] else []
  match load img.url with
  | some (nw, nh) =>
      let insetPx := jsRound (mmToPx (max 0 opts.bleed) opts.dpi
        * (computeLayoutMetricsLegacy opts).scale)
      let innerW := cardW - insetPx * 2
      let innerH := cardH - insetPx * 2
      let cover := max ((innerW : ℚ) / (nw : ℚ)) ((innerH : ℚ) / (nh : ℚ))
      let dw := jsRound ((nw : ℚ) * cover)
      let dh := jsRound ((nh : ℚ) * cover)
      let dx := x + insetPx + jsRound (((innerW - dw : ℤ) : ℚ) / 2)
      let dy := y + insetPx + jsRound (((innerH - dh : ℤ) : ℚ) / 2)
      bleedBg ++ [DrawOp.drawImage img.url dx dy dw dh]
  | none => bleedBg ++ drawPlaceholder x y cardW cardH

/-- Per-cell op lists of the legacy renderer, in reading order. -/
def legacyCells (load : String → Option (ℕ × ℕ)) (opts : ExportOptions) :
    ℕ → List LayoutImage → List (List DrawOp)
  | _, [] => []
  | i, img :: rest => legacyCellOps load opts i img :: legacyCells load opts (i + 1) rest

/-- Legacy cut-margin guide overlay (semi-transparent fill rectangles on the
two interior column and row boundaries). -/
def legacyGuideOps (opts : ExportOptions) : List DrawOp :=
  if opts.drawCutMargins then
    let cardW := legacyCardW opts
    let cardH := legacyCardH opts
    let totalW := cardW * (COLS : ℤ)
    let totalH := cardH * (ROWS : ℤ)
    let extraV := jsRound ((totalH : ℚ) * (4/100))
    let extraH := jsRound ((totalW : ℚ) * (2/100))
    let vert := (List.range (COLS - 1)).map (fun c =>
      let x := legacyOriginX opts + ((c : ℤ) + 1) * cardW
      let w := max 1 (jsRound ((cardW : ℚ) * (25/10000)))
      DrawOp.fillRect (jsRound ((x : ℚ) - (w : ℚ) / 2)) (legacyOriginY opts - extraV)
        w (totalH + 2 * extraV) "rgba(16,185,129,0.8)")
    let horiz := (List.range (ROWS - 1)).map (fun r =>
      let y := legacyOriginY opts + ((r : ℤ) + 1) * cardH
      let h := max 1 (jsRound ((cardH : ℚ) * (25/10000)))
      DrawOp.fillRect (legacyOriginX opts - extraH) (jsRound ((y : ℚ) - (h : ℚ) / 2))
        (totalW + 2 * extraH) h "rgba(16,185,129,0.8)")
    vert ++ horiz
  else []

/-- `renderPageToPng` of the legacy `export.ts`: white background, the nine
cells (image or placeholder — per-image failures are isolated), then the
optional guide overlay.  This function is total: the raster is always
produced. -/
def renderPageToPng (load : String → Option (ℕ × ℕ)) (page : LayoutPage)
    (opts : ExportOptions) : List DrawOp :=
  let px := pagePixelSize opts
  DrawOp.fillRect 0 0 px.1 px.2 "#ffffff"
    :: (legacyCells load opts 0 (page.images.take (COLS * ROWS))).flatten
    ++ legacyGuideOps opts

/-! ### Renderer lemmas and claim theorems -/

theorem flatten_get_infix {α : Type} (ls : List (List α)) :
    ∀ (k : ℕ) (l : List α), ls[k]? = some l →
      ∃ pre post, ls.flatten = pre ++ l ++ post := by
  induction ls with
  | nil => intro k l h; simp at h
  | cons a rest ih =>
      intro k l h
      match k with
      | 0 =>
          simp only [List.getElem?_cons_zero, Option.some.injEq] at h
          subst h
          exact ⟨[], rest.flatten, by simp⟩
      | k + 1 =>
          simp only [List.getElem?_cons_succ] at h
          obtain ⟨pre, post, hp⟩ := ih k l h
          exact ⟨a ++ pre, post, by simp [hp]⟩

theorem mem_of_getElem?' {α : Type} (l : List α) :
    ∀ (k : ℕ) (a : α), l[k]? = some a → a ∈ l := by
  induction l with
  | nil => intro k a h; simp at h
  | cons b rest ih =>
      intro k a h
      match k with
      | 0 =>
          simp only [List.getElem?_cons_zero, Option.some.injEq] at h
          subst h
          exact List.mem_cons_self _ _
      | k + 1 =>
          simp only [List.getElem?_cons_succ] at h
          exact List.mem_cons_of_mem _ (ih k a h)

theorem legacyCells_get (load : String → Option (ℕ × ℕ)) (opts : ExportOptions)
    (imgs : List LayoutImage) :
    ∀ (i k : ℕ) (img : LayoutImage), imgs[k]? = some img →
      (legacyCells load opts i imgs)[k]? = some (legacyCellOps load opts (i + k) img) := by
  induction imgs with
  | nil => intro i k img h; simp at h
  | cons a rest ih =>
      intro i k img h
      match k with
      | 0 =>
          simp only [List.getElem?_cons_zero, Option.some.injEq] at h
          subst h
          simp [legacyCells]
      | k + 1 =>
          simp only [List.getElem?_cons_succ] at h
          have := ih (i + 1) k img h
          simpa [legacyCells, Nat.add_assoc, Nat.add_comm 1 k] using this

/-- C7 counterexample: in the current exportUtils-based renderer, an image
whose load fails on both paths rejects the whole page render — no
placeholder is drawn and no raster is produced for the page. -/
theorem render_aborts_on_load_failure_counterexample :
    renderLayoutPageToCanvas (fun _ => none)
        { role := Role.front, images := [{ url := "u", name := none }] } (optsBleed 0)
      = Except.error "image load failed" := rfl

/-- C7 amended: in the legacy renderPageToPng renderer, a load failure on
both paths draws the deterministic placeholder (flat fill, border, diagonal
cross) over that cell's card rectangle, every sibling image whose load
succeeds is still drawn, and the page op list is still produced; in the
current renderLayoutPageToCanvas renderer the failure instead rejects the
page (see the counterexample). -/
theorem legacy_placeholder_on_failure (load : String → Option (ℕ × ℕ))
    (page : LayoutPage) (opts : ExportOptions) (k : ℕ) (img : LayoutImage)
    (hk : (page.images.take (COLS * ROWS))[k]? = some img)
    (hfail : load img.url = none) :
    (∃ pre post, renderPageToPng load page opts
        = pre
          ++ drawPlaceholder (legacyOriginX opts + ((k % COLS : ℕ) : ℤ) * legacyCardW opts)
              (legacyOriginY opts + ((k / COLS : ℕ) : ℤ) * legacyCardH opts)
              (legacyCardW opts) (legacyCardH opts)
          ++ post)
    ∧ (∀ (j : ℕ) (imgj : LayoutImage) (nw nh : ℕ),
        (page.images.take (COLS * ROWS))[j]? = some imgj →
        load imgj.url = some (nw, nh) →
        ∃ dx dy dw dh, DrawOp.drawImage imgj.url dx dy dw dh ∈ renderPageToPng load page opts)
    ∧ renderPageToPng load page opts ≠ [] := by
  refine ⟨?_, ?_, ?_⟩
  · have hcell := legacyCells_get load opts (page.images.take (COLS * ROWS)) 0 k img hk
    rw [Nat.zero_add] at hcell
    obtain ⟨pre, post, hp⟩ := flatten_get_infix _ k _ hcell
    have hco : legacyCellOps load opts k img
        = (if 0 < max 0 opts.bleed then
            [DrawOp.fillRect (legacyOriginX opts + ((k % COLS : ℕ) : ℤ) * legacyCardW opts)
              (legacyOriginY opts + ((k / COLS : ℕ) : ℤ) * legacyCardH opts)
              (legacyCardW opts) (legacyCardH opts) "#000"]
          else [])
          ++ drawPlaceholder (legacyOriginX opts + ((k % COLS : ℕ) : ℤ) * legacyCardW opts)
              (legacyOriginY opts + ((k / COLS : ℕ) : ℤ) * legacyCardH opts)
              (legacyCardW opts) (legacyCardH opts) := by
      simp [legacyCellOps, hfail]
    rw [hco] at hp
    refine ⟨DrawOp.fillRect 0 0 (pagePixelSize opts).1 (pagePixelSize opts).2 "#ffffff"
        :: (pre ++ (if 0 < max 0 opts.bleed then
            [DrawOp.fillRect (legacyOriginX opts + ((k % COLS : ℕ) : ℤ) * legacyCardW opts)
              (legacyOriginY opts + ((k / COLS : ℕ) : ℤ) * legacyCardH opts)
              (legacyCardW opts) (legacyCardH opts) "#000"]
          else [])),
      post ++ legacyGuideOps opts, ?_⟩
    unfold renderPageToPng
    rw [hp]
    simp [List.append_assoc]
  · intro j imgj nw nh hj hload
    have hcell := legacyCells_get load opts (page.images.take (COLS * ROWS)) 0 j imgj hj
    have hmem : legacyCellOps load opts (0 + j) imgj
        ∈ legacyCells load opts 0 (page.images.take (COLS * ROWS)) :=
      mem_of_getElem?' _ j _ hcell
    rw [Nat.zero_add] at hmem
    have hin : ∃ dx dy dw dh, DrawOp.drawImage imgj.url dx dy dw dh
        ∈ legacyCellOps load opts j imgj := by
      simp only [legacyCellOps, hload]
      exact ⟨_, _, _, _, List.mem_append_right _ (List.mem_singleton.mpr rfl)⟩
    obtain ⟨dx, dy, dw, dh, hin⟩ := hin
    refine ⟨dx, dy, dw, dh, ?_⟩
    unfold renderPageToPng
    refine List.mem_cons_of_mem _ (List.mem_append_left _ ?_)
    rw [List.mem_flatten]
    exact ⟨legacyCellOps load opts j imgj, hmem, hin⟩
  · unfold renderPageToPng
    simp

/-- C7 witness: a page whose first image fails to load and whose second
loads at 100x140 gets a placeholder in cell 0 while the second image is
still drawn and the op list is produced. -/
theorem legacy_placeholder_on_failure_witness :
    ((([{ url := "bad", name := none }, { url := "ok", name := none }] : List LayoutImage).take
        (COLS * ROWS))[0]? = some { url := "bad", name := none })
    ∧ ((fun v => if v = "bad" then none else some (100, 140)) "bad"
        = (none : Option (ℕ × ℕ)))
    ∧ (∃ pre post,
        renderPageToPng (fun v => if v = "bad" then none else some (100, 140))
            { role := Role.front
              images := [{ url := "bad", name := none }, { url := "ok", name := none }] }
            (optsBleed 0)
          = pre
            ++ drawPlaceholder
                (legacyOriginX (optsBleed 0) + ((0 % COLS : ℕ) : ℤ) * legacyCardW (optsBleed 0))
                (legacyOriginY (optsBleed 0) + ((0 / COLS : ℕ) : ℤ) * legacyCardH (optsBleed 0))
                (legacyCardW (optsBleed 0)) (legacyCardH (optsBleed 0))
            ++ post)
    ∧ renderPageToPng (fun v => if v = "bad" then none else some (100, 140))
          { role := Role.front
            images := [{ url := "bad", name := none }, { url := "ok", name := none }] }
          (optsBleed 0) ≠ [] := by
  have h := legacy_placeholder_on_failure
    (fun v => if v = "bad" then none else some (100, 140))
    { role := Role.front
      images := [{ url := "bad", name := none }, { url := "ok", name := none }] }
    (optsBleed 0) 0 { url := "bad", name := none } rfl rfl
  exact ⟨rfl, rfl, h.1, h.2.2⟩

/-! ### Export orchestrators -/

/-- `getPagesFromServiceOrArg`: use the PageService view when it is
populated and matches the argument count, else the argument pages.  `svc`
stands for `pageService.toLayoutPages()` with `records.length =
svc.length`. -/
def getPagesFromServiceOrArg (svc pages : List LayoutPage) : List LayoutPage :=
  if svc.length = pages.length ∧ 0 < svc.length then svc else pages

/-- Render every page with the current renderer, aborting on the first
failure (an awaited rejection aborts the export loop). -/
def renderAll (load : String → Option (ℕ × ℕ)) (opts : ExportOptions) :
    List LayoutPage → Except String (List (List DrawOp))
  | [] => Except.ok []
  | pg :: rest =>
      match renderLayoutPageToCanvas load pg opts with
      | Except.error e => Except.error e
      | Except.ok ops =>
          match renderAll load opts rest with
          | Except.error e => Except.error e
          | Except.ok rest2 => Except.ok (ops :: rest2)

/-- Observable outcome of `exportToPngs` / `generatePngBlobs`: the PNG blobs
(modelled as op lists), the final state of the page batch, and the URLs
passed to the enhancement service. -/
structure ExportOutcome where
  blobs : List (List DrawOp)
  pagesOut : List LayoutPage
  sdCalls : List String
deriving Repr

/-- `exportToPngs` from the current `export.ts`: resolve the page list, and
when upscaling is requested probe the service — on an unavailable service
alert and return an empty array without touching the batch; otherwise run
the pipeline once for the whole batch and render every page. -/
def exportToPngs (sdAvail : Bool) (sd : String → Option String)
    (dbu : Option String) (cb : String → Bool) (load : String → Option (ℕ × ℕ))
    (svc pages : List LayoutPage) (opts : ExportOptions) :
    Except String ExportOutcome :=
  let list := getPagesFromServiceOrArg svc pages
  if opts.upscaleWithSD then
    if !sdAvail then Except.ok { blobs := [], pagesOut := list, sdCalls := [] }
    else
      let run := maybeUpscalePages sd dbu cb list
      match renderAll load opts run.pages with
      | Except.error e => Except.error e
      | Except.ok bs => Except.ok { blobs := bs, pagesOut := run.pages, sdCalls := run.calls }
  else
    match renderAll load opts list with
    | Except.error e => Except.error e
    | Except.ok bs => Except.ok { blobs := bs, pagesOut := list, sdCalls := [] }

/-- `generatePngBlobs` from the current `export.ts`: identical to
`exportToPngs` except that no downloads are triggered. -/
def generatePngBlobs (sdAvail : Bool) (sd : String → Option String)
    (dbu : Option String) (cb : String → Bool) (load : String → Option (ℕ × ℕ))
    (svc pages : List LayoutPage) (opts : ExportOptions) :
    Except String ExportOutcome :=
  let list := getPagesFromServiceOrArg svc pages
  if opts.upscaleWithSD then
    if !sdAvail then Except.ok { blobs := [], pagesOut := list, sdCalls := [] }
    else
      let run := maybeUpscalePages sd dbu cb list
      match renderAll load opts run.pages with
      | Except.error e => Except.error e
      | Except.ok bs => Except.ok { blobs := bs, pagesOut := run.pages, sdCalls := run.calls }
  else
    match renderAll load opts list with
    | Except.error e => Except.error e
    | Except.ok bs => Except.ok { blobs := bs, pagesOut := list, sdCalls := [] }

/-- C10: with upscaleWithSD enabled and the availability probe returning
false, both exportToPngs and generatePngBlobs return an empty blob array,
render no pages, make no enhancement calls, and leave the page batch (and
hence every image URL) untouched. -/
theorem unavailable_probe_skips_everything (sdAvail : Bool)
    (sd : String → Option String) (dbu : Option String) (cb : String → Bool)
    (load : String → Option (ℕ × ℕ)) (svc pages : List LayoutPage)
    (opts : ExportOptions) (hup : opts.upscaleWithSD = true)
    (hav : sdAvail = false) :
    exportToPngs sdAvail sd dbu cb load svc pages opts
      = Except.ok { blobs := [], pagesOut := getPagesFromServiceOrArg svc pages
                    sdCalls := [] }
    ∧ generatePngBlobs sdAvail sd dbu cb load svc pages opts
      = Except.ok { blobs := [], pagesOut := getPagesFromServiceOrArg svc pages
                    sdCalls := [] } := by
  subst hav
  constructor
  · unfold exportToPngs
    rw [if_pos hup]
    rfl
  · unfold generatePngBlobs
    rw [if_pos hup]
    rfl

/-- Options with upscaling enabled, used in the C10 witness. -/
def optsUp : ExportOptions :=
  { optsBleed 1 with upscaleWithSD := true }

/-- C10 witness: with the probe returning false, the concrete one-page batch
is returned untouched with no blobs and no calls. -/
theorem unavailable_probe_skips_everything_witness :
    optsUp.upscaleWithSD = true
    ∧ exportToPngs false sdSome none cbNone (fun _ => none) [] pagesOne optsUp
        = Except.ok { blobs := [], pagesOut := getPagesFromServiceOrArg [] pagesOne
                      sdCalls := [] } :=
  ⟨rfl, (unavailable_probe_skips_everything false sdSome none cbNone (fun _ => none)
      [] pagesOne optsUp rfl rfl).1⟩

end MTGPM
